import Mathlib

/-!
Verification development for the ecospold2matrix flow-reconciliation and
characterisation-matching engine (`ecospold2matrix.py`).

Python structures are embedded shallowly: pandas tables become lists of
records, SQL tables become lists of rows, floats become exact rationals,
nullable fields become `Option`, and every stateful routine becomes an
explicit function on those lists.  Database schema constraints that live in
`initialize_database.sql` (not part of the sources here) are modelled from
the specification and are flagged as such in the doc comment of the
corresponding definition.
-/

namespace E2M

/-- SQL `=` between nullable text values: NULL never compares equal. -/
def eqVal : Option String → Option String → Bool
  | some a, some b => a == b
  | _, _ => false

/-- SQL `IS` between nullable text values: null-safe equality. -/
def isEq (a b : Option String) : Bool := a == b

/-- Lower-casing, written over the character list so that it evaluates in
the kernel (`String.toLower` itself does not reduce there). -/
def lowerStr (s : String) : String := ⟨s.data.map Char.toLower⟩

/-- SQL `LIKE` between a nullable value and a nullable pattern.  In the data
at hand patterns contain no wildcards, so `LIKE` amounts to case-insensitive
string equality; NULL on either side never matches. -/
def likeO : Option String → Option String → Bool
  | some a, some b => lowerStr a == lowerStr b
  | _, _ => false

/-- `LIKE` against a non-null pattern. -/
def likeS (a : Option String) (b : String) : Bool := likeO a (some b)

/-! ## Unsourced-Flow Resolver (`__fix_flow_sources`) -/

/-- A row of the `PRO` process-label table, restricted to the columns that
`__fix_flow_sources` consults. -/
structure Process where
  activityId : String
  productId : String
  geography : String
  activityType : String
  deriving DecidableEq, Repr

/-- A row of `self.unsourced_flows`: an input flow lacking a supplying
activity, joined with the geography and activity type of its consumer. -/
structure UFlow where
  fileId : String
  productId : String
  geography : String
  activityType : String
  deriving DecidableEq, Repr

/-- Processes producing the product needed by the flow (`boPro`). -/
def boPro (PRO : List Process) (fl : UFlow) : List Process :=
  PRO.filter (fun p => p.productId == fl.productId)

/-- Markets with the flow's geography, among all processes (`boMarkGeo`). -/
def boMarkGeo (PRO : List Process) (fl : UFlow) : List Process :=
  PRO.filter (fun p => p.activityType == "1" && p.geography == fl.geography)

/-- Producers of the needed product with matching geography (`boProGeo`). -/
def boProGeo (PRO : List Process) (fl : UFlow) : List Process :=
  (boPro PRO fl).filter (fun p => p.geography == fl.geography)

/-- Producers of the needed product that are markets (`boProMark`). -/
def boProMark (PRO : List Process) (fl : UFlow) : List Process :=
  (boPro PRO fl).filter (fun p => p.activityType == "1")

/-- Per-flow decision of `__fix_flow_sources`.  The first component is the
`sourceActivityId` written back into `self.inflows` (the code writes the
empty sentinel `act_id = ''` when no rule fires, modelled as `none`); the
second component is the audit side file: its name and the candidate set
`self.PRO[boPro]` serialized in the final else-branch. -/
def fix_flow_sources (PRO : List Process) (fl : UFlow) :
    Option String × Option (String × List Process) :=
  if fl.activityType == "0" then
    let pro := boPro PRO fl
    let markGeo := boMarkGeo PRO fl
    let proGeo := boProGeo PRO fl
    let proMark := boProMark PRO fl
    if pro.length == 0 then (none, none)
    else if pro.length == 1 then (pro.head?.map (·.activityId), none)
    else if pro.length == 2 && proMark.length == 1 then
      (proMark.head?.map (·.activityId), none)
    else if markGeo.length == 1 then (markGeo.head?.map (·.activityId), none)
    else if proGeo.length == 1 then (proGeo.head?.map (·.activityId), none)
    else (none,
      some ("potentialSources_" ++ fl.productId ++ "_" ++ fl.fileId ++ ".csv",
            pro))
  else (none, none)

/-- The resolution precedence exactly as claim C1 words it (no zero-producer
rule): used only to compare the claim's wording against the code. -/
def claimC1_source (PRO : List Process) (fl : UFlow) : Option String :=
  let pro := boPro PRO fl
  let nonMark := pro.filter (fun p => !(p.activityType == "1"))
  let mark := pro.filter (fun p => p.activityType == "1")
  let markGeo := boMarkGeo PRO fl
  let proGeo := boProGeo PRO fl
  if pro.length == 1 then pro.head?.map (·.activityId)
  else if nonMark.length == 1 && mark.length == 1 then
    mark.head?.map (·.activityId)
  else if markGeo.length == 1 then markGeo.head?.map (·.activityId)
  else if proGeo.length == 1 then proGeo.head?.map (·.activityId)
  else none

/-! ## Missing-Activity Repairer (`__fix_missing_activities`) -/

/-- A row of `self.PRO` as seen by the repairer: the dataframe index
(`key`, in the pipeline always `activityId ++ "_" ++ productId`), the two
identity columns, the copied metadata columns, and the comment flag. -/
structure ProRow where
  key : String
  activityId : String
  productId : String
  activityName : Option String
  isic : Option String
  comment : Option String
  deriving DecidableEq, Repr

/-- A resolved row of `self.inflows` (the repairer runs after
`__fix_flow_sources` has written `sourceActivityId`). -/
structure InFlowRow where
  fileId : String
  sourceActivityId : String
  productId : String
  amount : ℚ
  deriving DecidableEq, Repr

/-- A row of `self.outflows`, keyed by its dataframe index. -/
structure OutFlowRow where
  key : String
  fileId : String
  productId : String
  amount : ℚ
  deriving DecidableEq, Repr

/-- The dataframe index synthesized for a dangling (activity, product)
pair: `i[0] + '_' + i[1]`. -/
def pairKey (pr : String × String) : String := pr.1 ++ "_" ++ pr.2

/-- `miss.merge(self.PRO[activity_cols], how='left', on='activityId')`:
metadata copied for a dangling activity.  When several `PRO` rows share the
`activityId` the merge duplicates the `miss` row and the subsequent repeated
`.ix` assignments to one index label leave the last match in place. -/
def mergedMeta (PRO : List ProRow) (a : String) : Option String × Option String :=
  match (PRO.filter (fun q => q.activityId == a)).getLast? with
  | some q => (q.activityName, q.isic)
  | none => (none, none)

/-- Pandas `.ix[i, cols] = …` on `PRO`: overwrite every row labelled `i`,
or append a fresh row when the label is new (enlargement). -/
def setPro (PRO : List ProRow) (i a p : String) (an isic : Option String) :
    List ProRow :=
  if PRO.any (fun q => q.key == i) then
    PRO.map (fun q => if q.key == i then
      { q with activityId := a, productId := p, activityName := an,
               isic := isic, comment := some "DUMMY PRODUCTION" } else q)
  else
    PRO ++ [⟨i, a, p, an, isic, some "DUMMY PRODUCTION"⟩]

/-- Pandas `.ix[i, ['fileId', 'productId', 'amount']] = [i, prod, 1.0]` on
`self.outflows`. -/
def setOut (out : List OutFlowRow) (i p : String) : List OutFlowRow :=
  if out.any (fun o => o.key == i) then
    out.map (fun o => if o.key == i then
      { o with fileId := i, productId := p, amount := 1 } else o)
  else
    out ++ [⟨i, i, p, 1⟩]

/-- `set_flows - set_labels`: the dangling (sourceActivityId, productId)
pairs, in first-appearance order. -/
def missingPairs (PRO : List ProRow) (inflows : List InFlowRow) :
    List (String × String) :=
  let setFlows :=
    ((inflows.map (fun fl => (fl.sourceActivityId, fl.productId))).dedup)
  let setLabels := PRO.map (fun q => (q.activityId, q.productId))
  setFlows.filter (fun pr => !(setLabels.contains pr))

/-- `__fix_missing_activities`: for each dangling pair insert a dummy
production row into `PRO` and an outflow row of amount 1.0. -/
def fix_missing_activities (PRO : List ProRow) (inflows : List InFlowRow)
    (outflows : List OutFlowRow) : List ProRow × List OutFlowRow :=
  (missingPairs PRO inflows).foldl
    (fun acc pr =>
      let i := pairKey pr
      let meta := mergedMeta PRO pr.1
      (setPro acc.1 i pr.1 pr.2 meta.1 meta.2, setOut acc.2 i pr.2))
    (PRO, outflows)

/-! ## Flow extraction (`extract_flows`) -/

/-- The flow-relevant content of one child element of `flowData`. -/
inductive EKind where
  /-- an `elementaryExchange` element -/
  | elem (exchId : String)
  /-- an `intermediateExchange` with an `inputGroup` child -/
  | interIn (srcAct : Option String) (prodId : String)
  /-- an `intermediateExchange` with an `outputGroup` child -/
  | interOut (prodId : String) (prodVol : Option ℚ) (outputGroup : Int)
  /-- any other element (no table row is produced for it) -/
  | other
  deriving DecidableEq, Repr

/-- One entry of `flow_ds`; `amount` is `float(entry.attrib.get('amount'))`
when that conversion succeeds, `none` when it raises. -/
structure FEntry where
  kind : EKind
  amount : Option ℚ
  deriving DecidableEq, Repr

/-- Row of `elementary_flows`. -/
structure ElemRow where
  fileId : String
  elementaryExchangeId : String
  amount : ℚ
  deriving DecidableEq, Repr

/-- Raw inflow row as appended during extraction (`activityLinkId` may be
absent). -/
structure InFlowRowOpt where
  fileId : String
  sourceActivityId : Option String
  productId : String
  amount : ℚ
  deriving DecidableEq, Repr

/-- Raw outflow row as appended during extraction. -/
structure OutRowRaw where
  fileId : String
  productId : String
  amount : ℚ
  prodVol : Option ℚ
  outputGroup : Int
  deriving DecidableEq, Repr

/-- The tables generated by `extract_flows` for a single file. -/
structure FlowTables where
  inflows : List InFlowRowOpt
  elementary : List ElemRow
  outflows : List OutRowRaw
  deriving DecidableEq, Repr

/-- Exact-duplicate removal performed by `__deduplicate` on the outflow
list: keeps the first occurrence of each row. -/
def dedupKeepFirst (rows : List OutRowRaw) : List OutRowRaw :=
  rows.foldl (fun acc r => if acc.contains r then acc else acc ++ [r]) []

/-- One step of the `for entry in flow_ds` loop.  The state carries the
Python local `_amount`, which survives from one iteration to the next: when
`float(...)` raises, the warning message itself reads `_amount`, so on the
very first failing entry the handler raises `UnboundLocalError` and the
whole extraction aborts (modelled as `Except.error`). -/
def extractStep (fileId : String) (st : Option ℚ × FlowTables) (e : FEntry) :
    Except String (Option ℚ × FlowTables) :=
  match e.amount with
  | none =>
    match st.1 with
    | none => .error "UnboundLocalError: local variable _amount referenced before assignment"
    | some _ => .ok st
  | some a =>
    if a == 0 then .ok (some a, st.2)
    else
      let t := st.2
      match e.kind with
      | .elem exchId =>
        .ok (some a, { t with elementary := t.elementary ++ [⟨fileId, exchId, a⟩] })
      | .interIn src prod =>
        .ok (some a, { t with inflows := t.inflows ++ [⟨fileId, src, prod, a⟩] })
      | .interOut prod pv og =>
        .ok (some a, { t with outflows := t.outflows ++ [⟨fileId, prod, a, pv, og⟩] })
      | .other => .ok (some a, t)

/-- `extract_flows` over the entries of one spold file, including the final
duplicate removal on the outflow list. -/
def extract_flows (fileId : String) (entries : List FEntry) :
    Except String FlowTables := do
  let st ← entries.foldlM (extractStep fileId) ((none : Option ℚ), ⟨[], [], []⟩)
  pure { st.2 with outflows := dedupKeepFirst st.2.outflows }

/-! ## Matrix assembly (`build_AF`)

Matrix cells are `Option ℚ`: `none` stands for a missing entry (pandas
`NaN`, with `nan2null` left at its default `False`). -/

/-- The pivot `z`: entry at row `r = sourceActivityId ++ '_' ++ productId`
and column `c = fileId` of `self.inflows`. -/
def zEntry (inflows : List InFlowRow) (r c : String) : Option ℚ :=
  (inflows.find? (fun fl =>
    fl.sourceActivityId ++ "_" ++ fl.productId == r && fl.fileId == c)).map
    (·.amount)

/-- The pivot `g`: entry at row `r = elementaryExchangeId` and column
`c = fileId` of `self.elementary_flows`. -/
def gEntry (elementary : List ElemRow) (r c : String) : Option ℚ :=
  (elementary.find? (fun el =>
    el.elementaryExchangeId == r && el.fileId == c)).map (·.amount)

/-- The outflow row indexed by a process label (`self.outflows` is indexed
by `fileId`). -/
def outAmount (outflows : List OutFlowRow) (c : String) : Option ℚ :=
  (outflows.find? (fun o => o.key == c)).map (·.amount)

/-- Technology-matrix entry produced by `build_AF`.  Under `positive_waste`
the row is first multiplied by `sign_changer = amount / |amount|` of the row
process's outflow and the column divisor uses the absolute output; otherwise
the entry is divided by the signed output of the column process. -/
def buildA (positiveWaste : Bool) (inflows : List InFlowRow)
    (outflows : List OutFlowRow) (r c : String) : Option ℚ :=
  (zEntry inflows r c).bind (fun v =>
    if positiveWaste then
      (outAmount outflows r).bind (fun orow =>
        (outAmount outflows c).map (fun ocol =>
          v * (orow / |orow|) * (1 / |ocol|)))
    else
      (outAmount outflows c).map (fun ocol => v * (1 / ocol)))

/-- Extension-matrix entry produced by `build_AF`: the elementary-flow pivot
is never sign-changed, only normalized by the column process's output
(absolute output under `positive_waste`). -/
def buildF (positiveWaste : Bool) (elementary : List ElemRow)
    (outflows : List OutFlowRow) (r c : String) : Option ℚ :=
  (gEntry elementary r c).bind (fun v =>
    (outAmount outflows c).map (fun ocol =>
      if positiveWaste then v * (1 / |ocol|) else v * (1 / ocol)))

/-! ## Characterized-extension reordering (`generate_characterized_extensions`)

`self.F` is modelled as a list of rows, each carrying its index label and
its payload of (already zero-filled, `Forg = self.F.fillna(0)`) column
values. -/

/-- `F.reindex_axis(dsids, 0).fillna(0)`: the row with the requested label,
or an all-zero (empty) payload when the label is absent. -/
def rowOf (F : List (String × List ℚ)) (i : String) : List ℚ :=
  match F.find? (fun p => p.1 == i) with
  | some p => p.2
  | none => []

/-- `F.values.sum()`. -/
def sumAll (F : List (String × List ℚ)) : ℚ :=
  (F.map (fun p => p.2.sum)).sum

/-- `(F.values > 0).sum()`. -/
def posCount (F : List (String × List ℚ)) : ℕ :=
  (F.map (fun p => p.2.countP (fun v => 0 < v))).sum

/-- The reordering and safety assertions of
`generate_characterized_extensions`: reindex `F` to the `STR` label order
(its `dsid` column) and assert that the total of all entries and the count
of strictly positive entries are preserved; a violated assertion aborts. -/
def generate_characterized_extensions (F : List (String × List ℚ))
    (dsids : List String) : Except String (List (String × List ℚ)) :=
  let Fnew := dsids.map (fun i => (i, rowOf F i))
  if sumAll Fnew == sumAll F && posCount Fnew == posCount F then .ok Fnew
  else .error "AssertionError"

/-! ## Substance Identity Resolver
(`_integrate_flows_withCAS`, `_integrate_flows_withoutCAS`,
`_update_labels_from_names`, `_insert_names_from_labels`) -/

/-- A row of the `substances` table. -/
structure SubstRow where
  sid : ℕ
  aName : Option String
  cas : Option String
  tag : Option String
  deriving DecidableEq, Repr

/-- A row of the `names` table. -/
structure NameRow where
  name : Option String
  tag : Option String
  sid : ℕ
  deriving DecidableEq, Repr

/-- A row of the `synonyms` table. -/
structure SynRow where
  aName : String
  anotherName : String
  approximationLevel : ℕ
  deriving DecidableEq, Repr

/-- A row of a raw flow table (`raw_char` / `raw_inventory`). -/
structure FlowRec where
  name : Option String
  name2 : Option String
  cas : Option String
  tag : Option String
  substid : Option ℕ
  deriving DecidableEq, Repr

/-- The shared relational workspace: the `substances` and `names` tables. -/
structure DB where
  substances : List SubstRow
  names : List NameRow
  deriving DecidableEq, Repr

/-- The empty workspace. -/
def DB.empty : DB := ⟨[], []⟩

/-- The next SQLite rowid for `substances`. -/
def nextSid (db : DB) : ℕ :=
  (db.substances.map (·.sid)).foldr max 0 + 1

/-- Modelled from the spec: `initialize_database.sql` is not among the
sources, so the uniqueness constraint of `substances` follows the data
model of the spec — at most one substance per distinct (cas, tag) pair when
the cas is known, at most one per distinct (name, tag) pair when it is not,
and a non-null canonical name.  `INSERT OR IGNORE` therefore skips a row
whose key is already present. -/
def insertSubstance (db : DB) (nm cas tag : Option String) : DB :=
  if nm == none then db
  else if db.substances.any (fun s =>
      match cas with
      | some _ => eqVal cas s.cas && isEq tag s.tag
      | none => isEq nm s.aName && isEq tag s.tag) then db
  else { db with substances := db.substances ++ [⟨nextSid db, nm, cas, tag⟩] }

/-- Modelled from the spec: the `names` table maps many names to one
substance, scoped by tag, so its key is (name, tag);  `INSERT OR IGNORE`
skips a (name, tag) pair already present, and a null name is rejected. -/
def insertNameRow (db : DB) (nm tag : Option String) (sid : ℕ) : DB :=
  if nm == none then db
  else if db.names.any (fun n => isEq n.name nm && isEq n.tag tag) then db
  else { db with names := db.names ++ [⟨nm, tag, sid⟩] }

/-- `_insert_names_from_labels`: register `name` and `name2` of every
resolved record into `names`, scoped by the record's tag. -/
def insert_names_from_labels (db : DB) : List FlowRec → DB
  | [] => db
  | r :: rest =>
    match r.substid with
    | some sid =>
      insert_names_from_labels
        (insertNameRow (insertNameRow db r.name r.tag sid) r.name2 r.tag sid)
        rest
    | none => insert_names_from_labels db rest

/-- The per-table substance creation of `_integrate_flows_withCAS`: a new
substance for each new (cas, tag), named by `name`, or by `name2` when
`name` is null. -/
def insertSubstancesCAS (db : DB) : List FlowRec → DB
  | [] => db
  | r :: rest =>
    match r.cas with
    | none => insertSubstancesCAS db rest
    | some _ =>
      match r.name with
      | some _ => insertSubstancesCAS (insertSubstance db r.name r.cas r.tag) rest
      | none => insertSubstancesCAS (insertSubstance db r.name2 r.cas r.tag) rest

/-- The CAS back-fill of `_integrate_flows_withCAS`:
`SET substid = (SELECT s.substid FROM substances s WHERE t.cas = s.cas AND
t.tag IS s.tag) WHERE t.substid IS NULL`. -/
def backfillCAS (db : DB) (recs : List FlowRec) : List FlowRec :=
  recs.map (fun r =>
    if r.substid == none then
      match db.substances.find? (fun s => eqVal r.cas s.cas && isEq r.tag s.tag) with
      | some s => { r with substid := some s.sid }
      | none => r
    else r)

/-- `_integrate_flows_withCAS` for one table. -/
def integrate_flows_withCAS (db : DB) (recs : List FlowRec) :
    DB × List FlowRec :=
  let db1 := insertSubstancesCAS db recs
  let recs1 := backfillCAS db1 recs
  (insert_names_from_labels db1 recs1, recs1)

/-- The exact (name, tag) lookup of `_update_labels_from_names`: first
`names` row with `(t.name LIKE n.name OR t.name2 LIKE n.name) AND t.tag IS
n.tag`. -/
def exactNameMatch (db : DB) (r : FlowRec) : Option NameRow :=
  db.names.find? (fun n =>
    (likeO r.name n.name || likeO r.name2 n.name) && isEq r.tag n.tag)

/-- One synonym-table lookup of `_update_labels_from_names` at a fixed
approximation level and direction (`dirA = true` matches the record against
`s.aName` and the `names` table against `s.anotherName`). -/
def synMatch (db : DB) (syns : List SynRow) (lvl : ℕ) (dirA : Bool)
    (r : FlowRec) : Option ℕ :=
  db.names.findSome? (fun n =>
    if isEq r.tag n.tag && syns.any (fun s =>
        s.approximationLevel == lvl &&
        (likeS r.name (if dirA then s.aName else s.anotherName) ||
         likeS r.name2 (if dirA then s.aName else s.anotherName)) &&
        likeO (some (if dirA then s.anotherName else s.aName)) n.name)
    then some n.sid else none)

/-- `np.sort(self._synonyms.approximationLevel.unique())`: the distinct
approximation levels in ascending order. -/
def levelsOf (syns : List SynRow) : List ℕ :=
  List.insertionSort (· ≤ ·) ((syns.map (·.approximationLevel)).dedup)

/-- The ordered (level, direction) iteration of the synonym loop. -/
def synSteps (syns : List SynRow) : List (ℕ × Bool) :=
  (levelsOf syns).flatMap (fun l => [(l, true), (l, false)])

/-- One `UPDATE OR IGNORE` of the synonym loop applied to one record. -/
def synStep (db : DB) (syns : List SynRow) (r : FlowRec) (st : ℕ × Bool) :
    FlowRec :=
  if r.substid == none then
    match synMatch db syns st.1 st.2 r with
    | some sid => { r with substid := some sid }
    | none => r
  else r

/-- The synonym loop over an explicit list of (level, direction) steps. -/
def synFoldSteps (db : DB) (syns : List SynRow) :
    List (ℕ × Bool) → FlowRec → FlowRec
  | [], r => r
  | st :: steps, r => synFoldSteps db syns steps (synStep db syns r st)

/-- The synonym cascade applied to one still-unresolved record. -/
def synFold (db : DB) (syns : List SynRow) (r : FlowRec) : FlowRec :=
  synFoldSteps db syns (synSteps syns) r

/-- `_update_labels_from_names` restricted to one record: both its UPDATE
statements touch only rows with `substid IS NULL AND cas IS NULL`, try the
exact (name, tag) match first and the synonym cascade after. -/
def update_labels_from_names (db : DB) (syns : List SynRow) (r : FlowRec) :
    FlowRec :=
  if r.substid == none && r.cas == none then
    match exactNameMatch db r with
    | some n => { r with substid := some n.sid }
    | none => synFold db syns r
  else r

/-- Step 2.5 of `_integrate_flows_withoutCAS`: mint a substance for each
record still unresolved, keyed by name (or `name2` when `name` is null). -/
def insertSubstancesNoCAS (db : DB) : List FlowRec → DB
  | [] => db
  | r :: rest =>
    if r.substid == none then
      match r.name with
      | some _ => insertSubstancesNoCAS (insertSubstance db r.name r.cas r.tag) rest
      | none => insertSubstancesNoCAS (insertSubstance db r.name2 r.cas r.tag) rest
    else insertSubstancesNoCAS db rest

/-- Step 2.6 of `_integrate_flows_withoutCAS`: back-fill `substid` by
(name, tag) against `substances` for rows still unresolved. -/
def backfillNameTag (db : DB) (recs : List FlowRec) : List FlowRec :=
  recs.map (fun r =>
    if r.substid == none then
      match db.substances.find? (fun s =>
          (likeO r.name s.aName || likeO r.name2 s.aName) && isEq r.tag s.tag) with
      | some s => { r with substid := some s.sid }
      | none => r
    else r)

/-- `_integrate_flows_withoutCAS` for one table. -/
def integrate_flows_withoutCAS (db : DB) (syns : List SynRow)
    (recs : List FlowRec) : DB × List FlowRec :=
  let recs1 := recs.map (update_labels_from_names db syns)
  let db1 := insert_names_from_labels db recs1
  let db2 := insertSubstancesNoCAS db1 recs1
  let recs2 := backfillNameTag db2 recs1
  let db3 := insert_names_from_labels db2 recs2
  let recs3 := recs2.map (update_labels_from_names db3 syns)
  (db3, recs3)

/-- Distinct surrogate keys in the `substances` table (its rowids). -/
def SidsNodup (db : DB) : Prop := (db.substances.map (·.sid)).Nodup

/-- Every `names` row points at a substance carrying the row's own tag. -/
def NamesWF (db : DB) : Prop :=
  ∀ n ∈ db.names, ∃ s ∈ db.substances, s.sid = n.sid ∧ s.tag = n.tag

/-- Every resolved record points at a substance carrying the record's own
tag — the tag-scoping invariant of the resolution engine. -/
def RecsWF (db : DB) (recs : List FlowRec) : Prop :=
  ∀ r ∈ recs, ∀ sid, r.substid = some sid →
    ∃ s ∈ db.substances, s.sid = sid ∧ s.tag = r.tag

/-- The `substances` table only ever grows. -/
def SubstExt (db db2 : DB) : Prop :=
  ∀ s ∈ db.substances, s ∈ db2.substances

/-- The substance-resolution phases of `characterize_flows`: the CAS pass
over every table, then the name/synonym pass over every table. -/
def characterize_flows (syns : List SynRow) (tables : List (List FlowRec)) :
    DB × List (List FlowRec) :=
  let p1 := tables.foldl (fun acc t =>
    ((integrate_flows_withCAS acc.1 t).1,
     acc.2 ++ [(integrate_flows_withCAS acc.1 t).2])) (DB.empty, [])
  p1.2.foldl (fun acc t =>
    ((integrate_flows_withoutCAS acc.1 syns t).1,
     acc.2 ++ [(integrate_flows_withoutCAS acc.1 syns t).2])) (p1.1, [])

/-! ## Characterisation factors (`_finalize_labels_and_factors`) -/

/-- A row of the `factors` table. -/
structure Factor where
  factorId : ℕ
  substId : ℕ
  comp : String
  subcomp : String
  unit : String
  impactId : String
  factorValue : ℚ
  method : String
  deriving DecidableEq, Repr

/-- A characterisation row of `labels_char` as projected into `factors`. -/
structure FactorIn where
  substId : ℕ
  comp : String
  subcomp : String
  unit : String
  impactId : String
  factorValue : ℚ
  deriving DecidableEq, Repr

/-- Same (substance, compartment, subcompartment, unit, impact, method)
key. -/
def sameFactorKey (f g : Factor) : Bool :=
  f.substId == g.substId && f.comp == g.comp && f.subcomp == g.subcomp &&
  f.unit == g.unit && f.impactId == g.impactId && f.method == g.method

/-- The next SQLite rowid for `factors`. -/
def nextFid (factors : List Factor) : ℕ :=
  (factors.map (·.factorId)).foldr max 0 + 1

/-- The `factors` row built from a characterisation row. -/
def mkFactor (fid : ℕ) (r : FactorIn) (method : String) : Factor :=
  ⟨fid, r.substId, r.comp, r.subcomp, r.unit, r.impactId, r.factorValue,
   method⟩

/-- One-by-one insertion into `factors`, skipping rows that duplicate an
existing row in all of key and value. -/
def insertFactorsAux (factors : List Factor) :
    List FactorIn → String → List Factor
  | [], _ => factors
  | r :: rows, method =>
    let f := mkFactor (nextFid factors) r method
    if factors.any (fun g => sameFactorKey f g && g.factorValue == r.factorValue)
    then insertFactorsAux factors rows method
    else insertFactorsAux (factors ++ [f]) rows method

/-- Modelled from the spec: `initialize_database.sql` is not among the
sources.  The in-source comment of `_finalize_labels_and_factors` says the
`factors` table carries "only loose constraint …, the better to identify
uniqueness conflicts", so `INSERT OR IGNORE … SELECT DISTINCT` is modelled
as skipping only rows that duplicate an existing row in all of key and
value: two rows with an equal key but different `factorValue` are both
retained. -/
def insertFactors (factors : List Factor) (rows : List FactorIn)
    (method : String) : List Factor :=
  insertFactorsAux factors rows.dedup method

/-- The conflict-detection self-join of `_finalize_labels_and_factors`:
pairs of rows with the same key and different factor values, each of which
is logged as a warning. -/
def factorConflicts (factors : List Factor) : List (Factor × Factor) :=
  factors.flatMap (fun f1 =>
    (factors.filter (fun f2 =>
      sameFactorKey f1 f2 && !(f1.factorValue == f2.factorValue))).map
      (fun f2 => (f1, f2)))

/-- Whether some row in `factors` carries the key of `f` with value `v`. -/
def hasKeyValue (factors : List Factor) (f : Factor) (v : ℚ) : Bool :=
  factors.any (fun g => sameFactorKey f g && g.factorValue == v)

/-! ## Characterisation Matcher (`_characterisation_matching`) -/

/-- A row of `labels_out`: one distinct observed flow. -/
structure LabelOut where
  id : ℕ
  substId : ℕ
  comp : String
  subcomp : String
  unit : String
  deriving DecidableEq, Repr

/-- A row of `obs2char`. -/
structure ObsRow where
  flowId : ℕ
  impactId : String
  factorId : ℕ
  factorValue : ℚ
  scheme : String
  deriving DecidableEq, Repr

/-- A row of the static `obs2char_subcomps` mapping table. -/
structure SubcompMap where
  comp : String
  obs_sc : String
  char_sc : String
  deriving DecidableEq, Repr

/-- A row of the static `fallback_sc` table. -/
structure FallbackSC where
  comp : String
  fallbacksubcomp : String
  deriving DecidableEq, Repr

/-- Modelled from the spec: the key of `obs2char` (whose schema is in the
missing `initialize_database.sql`) is the (flowId, impactId) pair — the
cascade is specified to bind each still-unmatched observation at most once
per impact category. -/
def sameObsKey (a b : ObsRow) : Bool :=
  a.flowId == b.flowId && a.impactId == b.impactId

/-- The obs2char row produced by joining an observation with a factor. -/
def mkObs (lo : LabelOut) (f : Factor) : ObsRow :=
  ⟨lo.id, f.impactId, f.factorId, f.factorValue, f.method⟩

/-- Stage 1 candidates: exact match on (substance, compartment,
subcompartment, unit) for the chosen method (`SELECT DISTINCT`). -/
def stage1Rows (labels : List LabelOut) (factors : List Factor)
    (method : String) : List ObsRow :=
  (labels.flatMap (fun lo =>
    (factors.filter (fun f =>
      lo.substId == f.substId && lo.comp == f.comp && lo.subcomp == f.subcomp &&
      f.method == method && lo.unit == f.unit)).map (mkObs lo))).dedup

/-- Stage 2 candidates: approximate subcompartment via `obs2char_subcomps`
(the join constrains `lo.subcomp = ocs.obs_sc` and `ocs.char_sc = f.subcomp`
but, as in the source, not `ocs.comp`). -/
def stage2Rows (labels : List LabelOut) (factors : List Factor)
    (ocs : List SubcompMap) (method : String) : List ObsRow :=
  (labels.flatMap (fun lo =>
    (factors.filter (fun f =>
      lo.substId == f.substId && lo.comp == f.comp &&
      ocs.any (fun o => lo.subcomp == o.obs_sc && o.char_sc == f.subcomp) &&
      f.method == method && lo.unit == f.unit)).map (mkObs lo))).dedup

/-- Stage 3 candidates: the method's `'unspecified'` subcompartment.  The
source query keeps a stray cross join with `obs2char_subcomps`, so it
yields nothing when that table is empty. -/
def stage3Rows (labels : List LabelOut) (factors : List Factor)
    (ocs : List SubcompMap) (method : String) : List ObsRow :=
  if ocs.isEmpty then []
  else
    (labels.flatMap (fun lo =>
      (factors.filter (fun f =>
        lo.substId == f.substId && lo.comp == f.comp &&
        f.subcomp == "unspecified" && f.method == method &&
        lo.unit == f.unit)).map (mkObs lo))).dedup

/-- Stage 4 candidates: the per-compartment fallback subcompartment. -/
def stage4Rows (labels : List LabelOut) (factors : List Factor)
    (fsc : List FallbackSC) (method : String) : List ObsRow :=
  (labels.flatMap (fun lo =>
    (factors.filter (fun f =>
      lo.substId == f.substId && lo.comp == f.comp &&
      fsc.any (fun s => lo.comp == s.comp && f.subcomp == s.fallbacksubcomp) &&
      f.method == method && lo.unit == f.unit)).map (mkObs lo))).dedup

/-- Plain `INSERT INTO obs2char`: a key collision violates the table's
unique constraint and aborts the statement (SQLite raises). -/
def insertObs (table : List ObsRow) : List ObsRow → Except String (List ObsRow)
  | [] => .ok table
  | row :: rows =>
    if table.any (fun g => sameObsKey g row) then
      .error "UNIQUE constraint failed: obs2char"
    else insertObs (table ++ [row]) rows

/-- `INSERT OR IGNORE INTO obs2char`: rows whose key is already bound are
skipped. -/
def insertObsIgnore (table : List ObsRow) : List ObsRow → List ObsRow
  | [] => table
  | row :: rows =>
    if table.any (fun g => sameObsKey g row) then insertObsIgnore table rows
    else insertObsIgnore (table ++ [row]) rows

/-- The four-stage matching cascade of `_characterisation_matching`. -/
def characterisation_matching (labels : List LabelOut)
    (factors : List Factor) (ocs : List SubcompMap) (fsc : List FallbackSC)
    (method : String) : Except String (List ObsRow) := do
  let t1 ← insertObs [] (stage1Rows labels factors method)
  let t2 := insertObsIgnore t1 (stage2Rows labels factors ocs method)
  let t3 := insertObsIgnore t2 (stage3Rows labels factors ocs method)
  pure (insertObsIgnore t3 (stage4Rows labels factors fsc method))

/-- Lookup of the binding of one (observation, impact) pair. -/
def findObs (table : List ObsRow) (fl : ℕ) (im : String) : Option ObsRow :=
  table.find? (fun o => o.flowId == fl && o.impactId == im)

/-! ## Concrete data of the two-process scenario

The inflow/outflow/elementary tables of `test_ecospold2matrix.py`
(`BAR_foo` produces 1 kg foo; `PUB_waste` produces −1 kg waste). -/

/-- The scenario's `self.inflows`. -/
def scnInflows : List InFlowRow :=
  [⟨"BAR_foo", "BAR", "foo", 3/10⟩,
   ⟨"BAR_foo", "PUB", "waste", -1/10⟩,
   ⟨"PUB_waste", "PUB", "waste", -1/50⟩]

/-- The scenario's `self.outflows`. -/
def scnOutflows : List OutFlowRow :=
  [⟨"BAR_foo", "BAR_foo", "foo", 1⟩,
   ⟨"PUB_waste", "PUB_waste", "waste", -1⟩]

/-- The scenario's `self.elementary_flows`, parameterized by the CH4
amount emitted by `PUB_waste`. -/
def scnElementary (ch4 : ℚ) : List ElemRow :=
  [⟨"BAR_foo", "CO2", 10⟩, ⟨"PUB_waste", "CH4", ch4⟩]

/-! # Theorems -/

/-- A filter and its complement split a list's length. -/
theorem length_filter_split (l : List α) (p : α → Bool) :
    (l.filter p).length + (l.filter (fun a => !(p a))).length = l.length := by
  induction l with
  | nil => simp
  | cons a t ih =>
    cases h : p a <;> simp [List.filter_cons, h] <;> omega

/-- C1, counterexample.  The claim's precedence has no zero-producer rule,
so with no producer of the needed product and exactly one market in the
right geography it would source the flow from that market; the code handles
zero producers first and leaves the flow unsourced. -/
theorem c1_counterexample :
    (fix_flow_sources [⟨"M", "q", "GEO", "1"⟩] ⟨"f", "p", "GEO", "0"⟩).1
      = none ∧
    claimC1_source [⟨"M", "q", "GEO", "1"⟩] ⟨"f", "p", "GEO", "0"⟩
      = some "M" := by
  exact ⟨by decide, by decide⟩

/-- C1, amended: for an ordinary (non-market) consuming activity the
resolver follows the first-match-wins precedence of the claim, *preceded by
a zero-producer rule*: no producer → unsourced; exactly one producer of the
product → that producer (whatever its geography); exactly one producer and
exactly one market among the candidates for the product → the market;
exactly one market with matching geography (among all processes) → that
market; exactly one producer with matching geography → that producer. -/
theorem c1_amended (PRO : List Process) (fl : UFlow)
    (h0 : fl.activityType = "0") :
    (boPro PRO fl = [] → (fix_flow_sources PRO fl).1 = none)
    ∧ (∀ p, boPro PRO fl = [p] →
        (fix_flow_sources PRO fl).1 = some p.activityId)
    ∧ (∀ m, ((boPro PRO fl).filter (fun q => !(q.activityType == "1"))).length = 1 →
        boProMark PRO fl = [m] →
        (fix_flow_sources PRO fl).1 = some m.activityId)
    ∧ (∀ m, (boPro PRO fl).length ≠ 1 →
        ¬(((boPro PRO fl).filter (fun q => !(q.activityType == "1"))).length = 1
           ∧ (boProMark PRO fl).length = 1) →
        boPro PRO fl ≠ [] → boMarkGeo PRO fl = [m] →
        (fix_flow_sources PRO fl).1 = some m.activityId)
    ∧ (∀ p, (boPro PRO fl).length ≠ 1 →
        ¬(((boPro PRO fl).filter (fun q => !(q.activityType == "1"))).length = 1
           ∧ (boProMark PRO fl).length = 1) →
        boPro PRO fl ≠ [] → (boMarkGeo PRO fl).length ≠ 1 →
        boProGeo PRO fl = [p] →
        (fix_flow_sources PRO fl).1 = some p.activityId) := by
  have hsplit := length_filter_split (boPro PRO fl)
    (fun q => q.activityType == "1")
  have hmark : (boPro PRO fl).filter (fun q => q.activityType == "1")
      = boProMark PRO fl := rfl
  rw [hmark] at hsplit
  refine ⟨?_, ?_, ?_, ?_, ?_⟩
  · intro h
    simp [fix_flow_sources, h0, h]
  · intro p h
    simp [fix_flow_sources, h0, h, boProMark, boProGeo, boMarkGeo]
  · intro m h1 h2
    have hm1 : (boProMark PRO fl).length = 1 := by rw [h2]; rfl
    have hlen : (boPro PRO fl).length = 2 := by omega
    simp [fix_flow_sources, h0, hlen, h2]
  · intro m hne1 hnotpm hne0 hmg
    have hg0 : ¬((boPro PRO fl).length == 0) = true := by
      simpa [List.length_eq_zero] using hne0
    have hg1 : ¬((boPro PRO fl).length == 1) = true := by
      simpa using hne1
    have hg2 : ¬(((boPro PRO fl).length == 2) && ((boProMark PRO fl).length == 1)) = true := by
      simp only [Bool.and_eq_true, beq_iff_eq, not_and]
      intro hp2 hm1
      exact hnotpm ⟨by omega, hm1⟩
    simp [fix_flow_sources, h0, hg0, hg1, hg2, hmg]
  · intro p hne1 hnotpm hne0 hmgne hpg
    have hg0 : ¬((boPro PRO fl).length == 0) = true := by
      simpa [List.length_eq_zero] using hne0
    have hg1 : ¬((boPro PRO fl).length == 1) = true := by
      simpa using hne1
    have hg2 : ¬(((boPro PRO fl).length == 2) && ((boProMark PRO fl).length == 1)) = true := by
      simp only [Bool.and_eq_true, beq_iff_eq, not_and]
      intro hp2 hm1
      exact hnotpm ⟨by omega, hm1⟩
    have hg3 : ¬((boMarkGeo PRO fl).length == 1) = true := by
      simpa using hmgne
    simp [fix_flow_sources, h0, hg0, hg1, hg2, hg3, hpg]

/-- C1, witness: the amended precedence evaluated on one concrete instance
of each rule. -/
theorem c1_amended_witness :
    (fix_flow_sources [] ⟨"f", "p", "G", "0"⟩).1 = none
    ∧ (fix_flow_sources [⟨"A", "p", "X", "0"⟩] ⟨"f", "p", "G", "0"⟩).1
        = some "A"
    ∧ (fix_flow_sources [⟨"A", "p", "X", "0"⟩, ⟨"M", "p", "Y", "1"⟩]
        ⟨"f", "p", "G", "0"⟩).1 = some "M"
    ∧ (fix_flow_sources [⟨"A", "p", "X", "0"⟩, ⟨"B", "p", "Y", "0"⟩,
        ⟨"C", "p", "Z", "0"⟩, ⟨"M", "q", "G", "1"⟩] ⟨"f", "p", "G", "0"⟩).1
        = some "M"
    ∧ (fix_flow_sources [⟨"A", "p", "G", "0"⟩, ⟨"B", "p", "Y", "0"⟩,
        ⟨"C", "p", "Z", "0"⟩] ⟨"f", "p", "G", "0"⟩).1 = some "A" := by
  refine ⟨(c1_amended _ _ rfl).1 (by decide),
    (c1_amended _ _ rfl).2.1 ⟨"A", "p", "X", "0"⟩ (by decide),
    (c1_amended _ _ rfl).2.2.1 ⟨"M", "p", "Y", "1"⟩ (by decide) (by decide),
    (c1_amended _ _ rfl).2.2.2.1 ⟨"M", "q", "G", "1"⟩ (by decide) (by decide)
      (by decide) (by decide),
    (c1_amended _ _ rfl).2.2.2.2 ⟨"A", "p", "G", "0"⟩ (by decide) (by decide)
      (by decide) (by decide) (by decide)⟩

/-- C7: when the consuming activity is ordinary and none of the selection
rules applies — at least two producers, not the one-producer-one-market
configuration, no unique market with matching geography, no unique producer
with matching geography — the resolver assigns no supplying activity and
serializes the full candidate set of producing processes to the per-flow
audit file `potentialSources_<productId>_<fileId>.csv`. -/
theorem c7_unresolved_audit (PRO : List Process) (fl : UFlow)
    (h0 : fl.activityType = "0")
    (h1 : 2 ≤ (boPro PRO fl).length)
    (h2 : ¬((boPro PRO fl).length = 2 ∧ (boProMark PRO fl).length = 1))
    (h3 : (boMarkGeo PRO fl).length ≠ 1)
    (h4 : (boProGeo PRO fl).length ≠ 1) :
    fix_flow_sources PRO fl =
      (none, some ("potentialSources_" ++ fl.productId ++ "_" ++ fl.fileId
        ++ ".csv", boPro PRO fl)) := by
  have hg0 : ¬((boPro PRO fl).length == 0) = true := by
    simp only [beq_iff_eq]; omega
  have hg1 : ¬((boPro PRO fl).length == 1) = true := by
    simp only [beq_iff_eq]; omega
  have hg2 : ¬(((boPro PRO fl).length == 2) && ((boProMark PRO fl).length == 1)) = true := by
    simp only [Bool.and_eq_true, beq_iff_eq, not_and]
    intro hp2 hm1
    exact h2 ⟨hp2, hm1⟩
  have hg3 : ¬((boMarkGeo PRO fl).length == 1) = true := by
    simpa using h3
  have hg4 : ¬((boProGeo PRO fl).length == 1) = true := by
    simpa using h4
  simp [fix_flow_sources, h0, hg0, hg1, hg2, hg3, hg4]

/-- A successful `find?` survives appending on the right. -/
theorem find?_append_some {α : Type} (p : α → Bool) (l₁ l₂ : List α) (a : α)
    (h : l₁.find? p = some a) : (l₁ ++ l₂).find? p = some a := by
  induction l₁ with
  | nil => simp at h
  | cons b t ih =>
    cases hb : p b with
    | true => simpa [List.find?_cons, hb] using h
    | false =>
      have h1 : List.find? p (b :: t) = List.find? p t := by
        simp [List.find?_cons, hb]
      have h2 : List.find? p (b :: (t ++ l₂)) = List.find? p (t ++ l₂) := by
        simp [List.find?_cons, hb]
      rw [h1] at h
      rw [List.cons_append, h2]
      exact ih h

/-- On a list with no duplicate labels, `rowOf` returns each row's own
payload. -/
theorem rowOf_mem {F : List (String × List ℚ)}
    (hnd : (F.map Prod.fst).Nodup) {p : String × List ℚ} (hp : p ∈ F) :
    rowOf F p.1 = p.2 := by
  induction F with
  | nil => simp at hp
  | cons a t ih =>
    rw [List.map_cons, List.nodup_cons] at hnd
    rcases List.mem_cons.mp hp with rfl | hmem
    · simp [rowOf]
    · have hne : ¬(a.1 == p.1) = true := by
        simp only [beq_iff_eq]
        intro he
        exact hnd.1 (he ▸ List.mem_map_of_mem Prod.fst hmem)
      simp only [rowOf, List.find?_cons, hne]
      exact ih hnd.2 hmem

/-- Reindexing by a permutation of the row labels permutes the rows. -/
theorem reindex_perm {F : List (String × List ℚ)} {dsids : List String}
    (hnd : (F.map Prod.fst).Nodup) (hperm : dsids.Perm (F.map Prod.fst)) :
    (dsids.map (fun i => (i, rowOf F i))).Perm F := by
  have h1 : (F.map Prod.fst).map (fun i => (i, rowOf F i)) = F := by
    rw [List.map_map]
    have : ∀ p ∈ F, ((fun i => (i, rowOf F i)) ∘ Prod.fst) p = id p := by
      intro p hp
      simp [rowOf_mem hnd hp]
    rw [List.map_congr_left this, List.map_id]
  have h2 := hperm.map (fun i => (i, rowOf F i))
  rw [h1] at h2
  exact h2

/-- C10: when the `STR.dsid` column is a permutation of the extension
matrix's row labels (each original row appearing exactly once), reordering
`F` preserves the total of all entries and the count of strictly positive
entries, the two safety assertions pass, and the function returns the
reordered matrix; conversely any violation of either equality makes the
operation fail. -/
theorem c10_reorder_preserves (F : List (String × List ℚ))
    (dsids : List String) (hnd : (F.map Prod.fst).Nodup)
    (hperm : dsids.Perm (F.map Prod.fst)) :
    (generate_characterized_extensions F dsids
        = .ok (dsids.map (fun i => (i, rowOf F i)))
      ∧ sumAll (dsids.map (fun i => (i, rowOf F i))) = sumAll F
      ∧ posCount (dsids.map (fun i => (i, rowOf F i))) = posCount F)
    ∧ ∀ (G : List (String × List ℚ)) (ds : List String),
        ¬(sumAll (ds.map (fun i => (i, rowOf G i))) = sumAll G
          ∧ posCount (ds.map (fun i => (i, rowOf G i))) = posCount G) →
        generate_characterized_extensions G ds = .error "AssertionError" := by
  constructor
  · have hp := reindex_perm hnd hperm
    have hsum : sumAll (dsids.map (fun i => (i, rowOf F i))) = sumAll F := by
      have := (hp.map (fun p => p.2.sum)).sum_eq
      simpa [sumAll] using this
    have hpos : posCount (dsids.map (fun i => (i, rowOf F i))) = posCount F := by
      have := (hp.map (fun p => p.2.countP (fun v => 0 < v))).sum_eq
      simpa [posCount] using this
    refine ⟨?_, hsum, hpos⟩
    simp [generate_characterized_extensions, hsum, hpos]
  · intro G ds hviol
    have : ¬((sumAll (ds.map (fun i => (i, rowOf G i))) == sumAll G)
        && (posCount (ds.map (fun i => (i, rowOf G i))) == posCount G)) = true := by
      simp only [Bool.and_eq_true, beq_iff_eq]
      exact fun h => hviol ⟨h.1, h.2⟩
    simp [generate_characterized_extensions, this]

/-- C10, witness: a two-row matrix reordered by the reversed label list,
and an assertion failure when a labelled row is dropped. -/
theorem c10_reorder_preserves_witness :
    (generate_characterized_extensions [("a", [1, -2]), ("b", [3])] ["b", "a"]
        = .ok [("b", [3]), ("a", [1, -2])]
      ∧ sumAll [("b", [(3 : ℚ)]), ("a", [1, -2])] = sumAll [("a", [1, -2]), ("b", [3])]
      ∧ posCount [("b", [(3 : ℚ)]), ("a", [1, -2])] = posCount [("a", [1, -2]), ("b", [3])])
    ∧ generate_characterized_extensions [("a", [(5 : ℚ)])] []
        = .error "AssertionError" := by
  have h := c10_reorder_preserves [("a", [1, -2]), ("b", [3])] ["b", "a"]
    (by simp) (by simp [List.Perm.swap])
  refine ⟨?_, ?_⟩
  · have h1 := h.1
    simpa [rowOf] using h1
  · refine h.2 [("a", [(5 : ℚ)])] [] ?_
    intro hc
    have := hc.1
    simp [sumAll] at this

/-- C7, witness: two producers of the product, neither a market, wrong
geography on both — the flow stays unsourced and both candidates land in
the audit file. -/
theorem c7_unresolved_audit_witness :
    fix_flow_sources [⟨"A1", "p", "X", "0"⟩, ⟨"A2", "p", "Y", "0"⟩]
      ⟨"f", "p", "G", "0"⟩ =
      (none, some ("potentialSources_p_f.csv",
        [⟨"A1", "p", "X", "0"⟩, ⟨"A2", "p", "Y", "0"⟩])) := by
  exact c7_unresolved_audit _ _ rfl (by decide) (by decide) (by decide)
    (by decide)

/-- C8, counterexample.  The claim feeds `build_AF` an elementary flow of
−0.3 units CH4 from `PUB_waste` and expects the extension-matrix entry 0.3
(−0.3 under the default waste convention).  At exactly that input the code
produces the opposite signs: −0.3 under the positive-waste convention
(`g` is never sign-changed, only divided by `|−1|`) and +0.3 under the
default convention (division by the signed output −1). -/
theorem c8_counterexample :
    buildF true (scnElementary (-3/10)) scnOutflows "CH4" "PUB_waste"
      = some (-3/10) ∧
    buildF true (scnElementary (-3/10)) scnOutflows "CH4" "PUB_waste"
      ≠ some (3/10) ∧
    buildF false (scnElementary (-3/10)) scnOutflows "CH4" "PUB_waste"
      = some (3/10) ∧
    buildF false (scnElementary (-3/10)) scnOutflows "CH4" "PUB_waste"
      ≠ some (-3/10) := by
  refine ⟨?_, ?_, ?_, ?_⟩
  all_goals simp +decide [buildF, gEntry, outAmount, scnElementary,
    scnOutflows, List.find?]
  all_goals norm_num

/-- C8, amended: with the CH4 elementary flow of the repository's own test
data (+0.3 from `PUB_waste`), all entries come out as the claim lists them.
The `BAR_foo` technology column holds 0.3 at `BAR_foo` and −0.1 at
`PUB_waste` (+0.1 under positive waste, where the `PUB_waste`
self-coefficient is normalized by the absolute output), and the extension
matrix holds 10.0 for CO2 from `BAR_foo` and 0.3 for CH4 under positive
waste (−0.3 under the default convention), `NaN` (`none`) elsewhere. -/
theorem c8_amended :
    buildA false scnInflows scnOutflows "BAR_foo" "BAR_foo" = some (3/10) ∧
    buildA false scnInflows scnOutflows "PUB_waste" "BAR_foo" = some (-1/10) ∧
    buildA false scnInflows scnOutflows "PUB_waste" "PUB_waste" = some (1/50) ∧
    buildA false scnInflows scnOutflows "BAR_foo" "PUB_waste" = none ∧
    buildA true scnInflows scnOutflows "BAR_foo" "BAR_foo" = some (3/10) ∧
    buildA true scnInflows scnOutflows "PUB_waste" "BAR_foo" = some (1/10) ∧
    buildA true scnInflows scnOutflows "PUB_waste" "PUB_waste" = some (1/50) ∧
    buildF true (scnElementary (3/10)) scnOutflows "CO2" "BAR_foo" = some 10 ∧
    buildF false (scnElementary (3/10)) scnOutflows "CO2" "BAR_foo" = some 10 ∧
    buildF true (scnElementary (3/10)) scnOutflows "CH4" "PUB_waste" = some (3/10) ∧
    buildF false (scnElementary (3/10)) scnOutflows "CH4" "PUB_waste" = some (-3/10) ∧
    buildF true (scnElementary (3/10)) scnOutflows "CH4" "BAR_foo" = none ∧
    buildF true (scnElementary (3/10)) scnOutflows "CO2" "PUB_waste" = none := by
  refine ⟨?_, ?_, ?_, ?_, ?_, ?_, ?_, ?_, ?_, ?_, ?_, ?_, ?_⟩
  all_goals simp +decide [buildA, buildF, zEntry, gEntry, outAmount,
    scnInflows, scnElementary, scnOutflows, List.find?]
  all_goals norm_num

/-- C9: a flow entry whose amount does not parse, or parses to zero, is
meant to be dropped with a warning.  The second conjunct shows the dropping
(a bad and a zero entry between two good ones leave no trace in any table).
The first conjunct exhibits the code slip: when the very first entry fails
to parse, the warning itself reads the never-assigned local `_amount` and
extraction aborts with an error instead of skipping. -/
theorem c9_extract_flows_drop :
    extract_flows "f" [⟨.elem "X", none⟩]
      = .error "UnboundLocalError: local variable _amount referenced before assignment" ∧
    extract_flows "f"
      [⟨.elem "CO2", some 10⟩, ⟨.elem "X", none⟩,
       ⟨.interOut "p" none 0, some 0⟩, ⟨.interIn (some "A") "q", some 2⟩]
      = .ok ⟨[⟨"f", some "A", "q", 2⟩], [⟨"f", "CO2", 10⟩], []⟩ := by
  constructor <;>
    simp +decide [extract_flows, extractStep, dedupKeepFirst, List.foldlM,
      Bind.bind, Except.bind, Pure.pure, Except.pure]

/-- A table whose insertion succeeded has no key collision with any
pending row. -/
theorem insertObs_ok_no_key (rows : List ObsRow) :
    ∀ acc t, insertObs acc rows = .ok t →
      ∀ row ∈ rows, acc.any (fun g => sameObsKey g row) = false := by
  induction rows with
  | nil => intro acc t _ row hr; simp at hr
  | cons row0 rest ih =>
    intro acc t h row hr
    rw [insertObs] at h
    cases hany : acc.any (fun g => sameObsKey g row0) with
    | true => rw [hany, if_pos rfl] at h; exact absurd h (by simp)
    | false =>
      rw [hany, if_neg (by simp)] at h
      rcases List.mem_cons.mp hr with rfl | hmem
      · exact hany
      · have := ih _ _ h row hmem
        rw [List.any_append] at this
        exact (Bool.or_eq_false_iff.mp this).1

/-- Bindings already present survive a successful plain insert, and every
inserted row whose key was absent is found afterwards. -/
theorem insertObs_ok_find (rows : List ObsRow) :
    ∀ acc t, insertObs acc rows = .ok t →
      (∀ fl im r, findObs acc fl im = some r → findObs t fl im = some r) ∧
      (∀ row ∈ rows, findObs acc row.flowId row.impactId = none →
        findObs t row.flowId row.impactId = some row) := by
  induction rows with
  | nil =>
    intro acc t h
    rw [insertObs] at h
    cases h
    exact ⟨fun _ _ _ hf => hf, fun row hr => by simp at hr⟩
  | cons row0 rest ih =>
    intro acc t h
    rw [insertObs] at h
    cases hany : acc.any (fun g => sameObsKey g row0) with
    | true => rw [hany, if_pos rfl] at h; exact absurd h (by simp)
    | false =>
      rw [hany, if_neg (by simp)] at h
      have ihs := ih _ _ h
      constructor
      · intro fl im r hf
        exact ihs.1 fl im r (find?_append_some _ _ _ _ hf)
      · intro row hr hnone
        rcases List.mem_cons.mp hr with rfl | hmem
        · refine ihs.1 row.flowId row.impactId row ?_
          have hself : (fun o => o.flowId == row.flowId
              && o.impactId == row.impactId) row = true := by simp
          unfold findObs at hnone ⊢
          rw [List.find?_append, hnone]
          simp [hself]
        · have hkey := insertObs_ok_no_key rest _ _ h row hmem
          rw [List.any_append] at hkey
          have hnone2 : findObs (acc ++ [row0]) row.flowId row.impactId = none := by
            have h2 : sameObsKey row0 row = false := by
              simpa using (Bool.or_eq_false_iff.mp hkey).2
            have h3 : (fun o => o.flowId == row.flowId
                && o.impactId == row.impactId) row0 = false := by
              simpa [sameObsKey] using h2
            unfold findObs at hnone ⊢
            rw [List.find?_append, hnone]
            simp [List.find?_cons, h3]
          exact ihs.2 row hmem hnone2

/-- Bindings already present survive `INSERT OR IGNORE`. -/
theorem findObs_insertObsIgnore (rows : List ObsRow) :
    ∀ t fl im r, findObs t fl im = some r →
      findObs (insertObsIgnore t rows) fl im = some r := by
  induction rows with
  | nil => intro t fl im r h; exact h
  | cons row0 rest ih =>
    intro t fl im r h
    rw [insertObsIgnore]
    cases hany : t.any (fun g => sameObsKey g row0) with
    | true => rw [if_pos rfl]; exact ih t fl im r h
    | false =>
      rw [if_neg (by simp)]
      refine ih _ fl im r ?_
      unfold findObs at h ⊢
      exact find?_append_some _ _ _ _ h

/-- C2: the four stages of `_characterisation_matching` run in order —
exact subcompartment, approximate subcompartment mapping, the method's
`unspecified` subcompartment, per-compartment default — and the later
stages insert with `OR IGNORE` against the obs2char key, so an
(observation, impact) pair that received a factor at the exact stage keeps
exactly that factor in the final table: no later stage rebinds it. -/
theorem c2_exact_stage_exclusive (labels : List LabelOut)
    (factors : List Factor) (ocs : List SubcompMap) (fsc : List FallbackSC)
    (method : String) (final : List ObsRow)
    (h : characterisation_matching labels factors ocs fsc method = .ok final) :
    ∀ row ∈ stage1Rows labels factors method,
      findObs final row.flowId row.impactId = some row := by
  intro row hrow
  cases h1 : insertObs [] (stage1Rows labels factors method) with
  | error e =>
    rw [characterisation_matching, h1] at h
    simp [Bind.bind, Except.bind] at h
  | ok t1 =>
    rw [characterisation_matching, h1] at h
    simp only [Bind.bind, Except.bind, pure, Except.pure, Except.ok.injEq] at h
    have ht1 := (insertObs_ok_find _ _ _ h1).2 row hrow rfl
    rw [← h]
    exact findObs_insertObsIgnore _ _ _ _ _
      (findObs_insertObsIgnore _ _ _ _ _
        (findObs_insertObsIgnore _ _ _ _ _ ht1))

/-- A pair of same-key different-value rows appears in the conflict
self-join. -/
theorem mem_factorConflicts {fs : List Factor} {f1 f2 : Factor}
    (h1 : f1 ∈ fs) (h2 : f2 ∈ fs) (hk : sameFactorKey f1 f2 = true)
    (hv : f1.factorValue ≠ f2.factorValue) :
    (f1, f2) ∈ factorConflicts fs := by
  unfold factorConflicts
  rw [List.mem_flatMap]
  refine ⟨f1, h1, ?_⟩
  rw [List.mem_map]
  exact ⟨f2, List.mem_filter.mpr ⟨h2, by simp [hk, hv]⟩, rfl⟩

/-- Rows already in `factors` survive insertion. -/
theorem insertFactorsAux_mono (rows : List FactorIn) :
    ∀ factors method f, f ∈ factors →
      f ∈ insertFactorsAux factors rows method := by
  induction rows with
  | nil => intro factors method f hf; exact hf
  | cons r0 rest ih =>
    intro factors method f hf
    rw [insertFactorsAux]
    split
    · exact ih _ _ _ hf
    · exact ih _ _ _ (List.mem_append_left _ hf)

/-- After insertion, every pending row's key carries its value somewhere in
the table (either the fresh row or the pre-existing duplicate). -/
theorem insertFactorsAux_covers (rows : List FactorIn) :
    ∀ factors method r, r ∈ rows →
      ∃ f ∈ insertFactorsAux factors rows method,
        f.substId = r.substId ∧ f.comp = r.comp ∧ f.subcomp = r.subcomp ∧
        f.unit = r.unit ∧ f.impactId = r.impactId ∧ f.method = method ∧
        f.factorValue = r.factorValue := by
  induction rows with
  | nil => intro factors method r hr; simp at hr
  | cons r0 rest ih =>
    intro factors method r hr
    rcases List.mem_cons.mp hr with rfl | hmem
    · rw [insertFactorsAux]
      cases hany : factors.any (fun g =>
          sameFactorKey (mkFactor (nextFid factors) r method) g
          && g.factorValue == r.factorValue) with
      | true =>
        obtain ⟨g, hgmem, hg⟩ := List.any_eq_true.mp hany
        rw [Bool.and_eq_true] at hg
        have hkey := hg.1
        simp only [sameFactorKey, mkFactor, Bool.and_eq_true, beq_iff_eq] at hkey
        rw [if_pos rfl]
        refine ⟨g, insertFactorsAux_mono rest _ _ _ hgmem,
          hkey.1.1.1.1.1.symm, hkey.1.1.1.1.2.symm, hkey.1.1.1.2.symm,
          hkey.1.1.2.symm, hkey.1.2.symm, hkey.2.symm, ?_⟩
        exact (beq_iff_eq.mp hg.2)
      | false =>
        rw [if_neg (by simp)]
        exact ⟨mkFactor (nextFid factors) r method,
          insertFactorsAux_mono rest _ _ _
            (List.mem_append_right _ (List.mem_singleton.mpr rfl)),
          rfl, rfl, rfl, rfl, rfl, rfl, rfl⟩
    · rw [insertFactorsAux]
      split
      · exact ih _ _ _ hmem
      · exact ih _ _ _ hmem

/-- C6, counterexample.  Two characterisation rows with the same
(substance, compartment, subcompartment, unit, impact) key and the
conflicting values 5 and 9: after `insert or ignore … select distinct` the
`factors` table retains *both* rows — the insertion deliberately carries
only a loose uniqueness constraint, so nothing discards the later
conflicting value; "the system keeps the first value inserted" is false. -/
theorem c6_counterexample :
    insertFactors [] [⟨7, "air", "s", "kg", "GWP", 5⟩,
        ⟨7, "air", "s", "kg", "GWP", 9⟩] "m"
      = [⟨1, 7, "air", "s", "kg", "GWP", 5, "m"⟩,
         ⟨2, 7, "air", "s", "kg", "GWP", 9, "m"⟩] := by
  rfl

/-- C6, amended: when two characterisation rows share the same factor key
but carry different values, the `factors` table ends up holding both
values, and the pair is reported by the conflict-detection self-join (each
returned row is logged as a `FAIL!` warning); no value is silently
discarded or chosen. -/
theorem c6_conflict_detected (factors0 : List Factor) (r1 r2 : FactorIn)
    (method : String)
    (hsub : r1.substId = r2.substId) (hcomp : r1.comp = r2.comp)
    (hsc : r1.subcomp = r2.subcomp) (hunit : r1.unit = r2.unit)
    (himp : r1.impactId = r2.impactId)
    (hval : r1.factorValue ≠ r2.factorValue) :
    ∃ f1 ∈ insertFactors factors0 [r1, r2] method,
      ∃ f2 ∈ insertFactors factors0 [r1, r2] method,
        f1.factorValue = r1.factorValue ∧ f2.factorValue = r2.factorValue ∧
        (f1, f2) ∈ factorConflicts (insertFactors factors0 [r1, r2] method) := by
  have hne : r1 ≠ r2 := fun he => hval (by rw [he])
  have hdedup : ([r1, r2] : List FactorIn).dedup = [r1, r2] := by
    rw [List.dedup_cons_of_not_mem (by simp [hne]), List.dedup_cons_of_not_mem (by simp),
      List.dedup_nil]
  unfold insertFactors
  rw [hdedup]
  obtain ⟨f1, hm1, hf1⟩ :=
    insertFactorsAux_covers [r1, r2] factors0 method r1 (by simp)
  obtain ⟨f2, hm2, hf2⟩ :=
    insertFactorsAux_covers [r1, r2] factors0 method r2 (by simp)
  have hkey : sameFactorKey f1 f2 = true := by
    simp only [sameFactorKey, Bool.and_eq_true, beq_iff_eq]
    refine ⟨⟨⟨⟨⟨?_, ?_⟩, ?_⟩, ?_⟩, ?_⟩, ?_⟩
    · rw [hf1.1, hf2.1, hsub]
    · rw [hf1.2.1, hf2.2.1, hcomp]
    · rw [hf1.2.2.1, hf2.2.2.1, hsc]
    · rw [hf1.2.2.2.1, hf2.2.2.2.1, hunit]
    · rw [hf1.2.2.2.2.1, hf2.2.2.2.2.1, himp]
    · rw [hf1.2.2.2.2.2.1, hf2.2.2.2.2.2.1]
  have hvne : f1.factorValue ≠ f2.factorValue := by
    rw [hf1.2.2.2.2.2.2, hf2.2.2.2.2.2.2]
    exact hval
  exact ⟨f1, hm1, f2, hm2, hf1.2.2.2.2.2.2, hf2.2.2.2.2.2.2,
    mem_factorConflicts hm1 hm2 hkey hvne⟩

/-- C6, witness: the amended statement at the concrete conflicting pair
(5 vs 9). -/
theorem c6_conflict_detected_witness :
    ∃ f1 ∈ insertFactors [] [⟨7, "air", "s", "kg", "GWP", 5⟩,
        ⟨7, "air", "s", "kg", "GWP", 9⟩] "m",
      ∃ f2 ∈ insertFactors [] [⟨7, "air", "s", "kg", "GWP", 5⟩,
          ⟨7, "air", "s", "kg", "GWP", 9⟩] "m",
        f1.factorValue = 5 ∧ f2.factorValue = 9 ∧
        (f1, f2) ∈ factorConflicts (insertFactors []
          [⟨7, "air", "s", "kg", "GWP", 5⟩,
           ⟨7, "air", "s", "kg", "GWP", 9⟩] "m") := by
  exact c6_conflict_detected [] ⟨7, "air", "s", "kg", "GWP", 5⟩
    ⟨7, "air", "s", "kg", "GWP", 9⟩ "m" rfl rfl rfl rfl rfl (by norm_num)

/-- C2, witness: one observation with an exact factor (value 5) and a
competing `unspecified` factor (value 9) for the same impact; the cascade
succeeds and the final table keeps the exact binding only. -/
theorem c2_exact_stage_exclusive_witness :
    findObs [⟨1, "GWP", 1, 5, "m"⟩] 1 "GWP" = some ⟨1, "GWP", 1, 5, "m"⟩ := by
  have h := c2_exact_stage_exclusive
    [⟨1, 7, "air", "s1", "kg"⟩]
    [⟨1, 7, "air", "s1", "kg", "GWP", 5, "m"⟩,
     ⟨2, 7, "air", "unspecified", "kg", "GWP", 9, "m"⟩]
    [⟨"air", "s1", "s1"⟩] [] "m" [⟨1, "GWP", 1, 5, "m"⟩] (by rfl)
  refine h ⟨1, "GWP", 1, 5, "m"⟩ ?_
  rw [show stage1Rows [⟨1, 7, "air", "s1", "kg"⟩]
      [⟨1, 7, "air", "s1", "kg", "GWP", 5, "m"⟩,
       ⟨2, 7, "air", "unspecified", "kg", "GWP", 9, "m"⟩] "m"
      = [⟨1, "GWP", 1, 5, "m"⟩] from rfl]
  exact List.mem_singleton.mpr rfl

/-- The repairer's fold, when every synthesized key is fresh for the
accumulated tables and the keys are pairwise distinct, appends one dummy
process row and one unit outflow row per dangling pair. -/
theorem repair_fold_fresh (todo : List (String × String)) :
    ∀ (P0 : List ProRow) (O0 : List OutFlowRow)
      (meta : String × String → Option String × Option String),
      (∀ pr ∈ todo, P0.any (fun q => q.key == pairKey pr) = false) →
      (∀ pr ∈ todo, O0.any (fun o => o.key == pairKey pr) = false) →
      todo.Pairwise (fun a b => pairKey a ≠ pairKey b) →
      todo.foldl (fun acc pr =>
          (setPro acc.1 (pairKey pr) pr.1 pr.2 (meta pr).1 (meta pr).2,
           setOut acc.2 (pairKey pr) pr.2)) (P0, O0)
        = (P0 ++ todo.map (fun pr => ⟨pairKey pr, pr.1, pr.2, (meta pr).1,
              (meta pr).2, some "DUMMY PRODUCTION"⟩),
           O0 ++ todo.map (fun pr => ⟨pairKey pr, pairKey pr, pr.2, 1⟩)) := by
  induction todo with
  | nil => intro P0 O0 meta _ _ _; simp
  | cons pr rest ih =>
    intro P0 O0 meta hP hO hpw
    rw [List.foldl_cons]
    have hPpr := hP pr (List.mem_cons_self pr rest)
    have hOpr := hO pr (List.mem_cons_self pr rest)
    rw [List.pairwise_cons] at hpw
    have hsetP : setPro P0 (pairKey pr) pr.1 pr.2 (meta pr).1 (meta pr).2
        = P0 ++ [⟨pairKey pr, pr.1, pr.2, (meta pr).1, (meta pr).2,
                 some "DUMMY PRODUCTION"⟩] := by
      rw [setPro, if_neg (by simp [hPpr])]
    have hsetO : setOut O0 (pairKey pr) pr.2
        = O0 ++ [⟨pairKey pr, pairKey pr, pr.2, 1⟩] := by
      rw [setOut, if_neg (by simp [hOpr])]
    rw [hsetP, hsetO]
    rw [ih (P0 ++ [_]) (O0 ++ [_]) meta ?_ ?_ hpw.2]
    · simp
    · intro pr2 h2
      rw [List.any_append]
      have h1 := hP pr2 (List.mem_cons_of_mem pr h2)
      have hkne : pairKey pr ≠ pairKey pr2 := hpw.1 pr2 h2
      simp [h1, hkne]
    · intro pr2 h2
      rw [List.any_append]
      have h1 := hO pr2 (List.mem_cons_of_mem pr h2)
      have hkne : pairKey pr ≠ pairKey pr2 := hpw.1 pr2 h2
      simp [h1, hkne]

/-- Every dangling pair is taken from the inflow pairs. -/
theorem missingPairs_sub (PRO : List ProRow) (inflows : List InFlowRow) :
    ∀ pr ∈ missingPairs PRO inflows,
      pr ∈ inflows.map (fun fl => (fl.sourceActivityId, fl.productId))
      ∧ (PRO.map (fun q => (q.activityId, q.productId))).contains pr = false := by
  intro pr hpr
  unfold missingPairs at hpr
  rw [List.mem_filter] at hpr
  refine ⟨List.mem_dedup.mp hpr.1, ?_⟩
  have := hpr.2
  cases hc : (PRO.map (fun q => (q.activityId, q.productId))).contains pr with
  | false => rfl
  | true => rw [hc] at this; simp at this

/-- C4, counterexample.  Two dangling pairs whose synthesized index keys
collide — ("a", "b_c") and ("a_b", "c") both become "a_b_c" — make the
second `.ix` assignment overwrite the first dummy production, so after the
repairer runs the inflow pair ("a", "b_c") still has no producing process
and only one (not two) process rows were synthesized. -/
theorem c4_counterexample :
    missingPairs [] [⟨"f1", "a", "b_c", 1⟩, ⟨"f2", "a_b", "c", 1⟩]
      = [("a", "b_c"), ("a_b", "c")] ∧
    (E2M.fix_missing_activities []
      [⟨"f1", "a", "b_c", 1⟩, ⟨"f2", "a_b", "c", 1⟩] []).1.map
      (fun q => (q.activityId, q.productId)) = [("a_b", "c")] := by
  exact ⟨rfl, rfl⟩

/-- C4, amended: provided every existing process row is keyed by its own
`activityId_productId` string, every outflow key belongs to a process, and
the pair-to-key encoding is injective on the pairs at hand (as with
underscore-free ids), the repairer appends exactly one placeholder
process-label row (comment `DUMMY PRODUCTION`, activity metadata copied
where available) and exactly one outflow row of amount 1.0 per dangling
pair, after which every input flow's (sourceActivityId, productId) pair
has a producing process. -/
theorem c4_amended (PRO : List ProRow) (inflows : List InFlowRow)
    (outflows : List OutFlowRow)
    (HPK : ∀ q ∈ PRO, q.key = pairKey (q.activityId, q.productId))
    (HOK : ∀ o ∈ outflows, ∃ q ∈ PRO, q.key = o.key)
    (HINJ : ∀ pr ∈ inflows.map (fun fl => (fl.sourceActivityId, fl.productId))
          ++ PRO.map (fun q => (q.activityId, q.productId)),
        ∀ pr2 ∈ inflows.map (fun fl => (fl.sourceActivityId, fl.productId))
          ++ PRO.map (fun q => (q.activityId, q.productId)),
        pairKey pr = pairKey pr2 → pr = pr2) :
    (∀ fl ∈ inflows, ∃ q ∈ (fix_missing_activities PRO inflows outflows).1,
        q.activityId = fl.sourceActivityId ∧ q.productId = fl.productId)
    ∧ (fix_missing_activities PRO inflows outflows).1.length
        = PRO.length + (missingPairs PRO inflows).length
    ∧ (fix_missing_activities PRO inflows outflows).2.length
        = outflows.length + (missingPairs PRO inflows).length
    ∧ (∀ pr ∈ missingPairs PRO inflows,
        (⟨pairKey pr, pr.1, pr.2, (mergedMeta PRO pr.1).1,
          (mergedMeta PRO pr.1).2, some "DUMMY PRODUCTION"⟩ : ProRow)
          ∈ (fix_missing_activities PRO inflows outflows).1
        ∧ (⟨pairKey pr, pairKey pr, pr.2, 1⟩ : OutFlowRow)
          ∈ (fix_missing_activities PRO inflows outflows).2) := by
  have hmem : ∀ pr ∈ missingPairs PRO inflows,
      pr ∈ inflows.map (fun fl => (fl.sourceActivityId, fl.productId))
        ++ PRO.map (fun q => (q.activityId, q.productId)) := by
    intro pr hpr
    exact List.mem_append_left _ (missingPairs_sub PRO inflows pr hpr).1
  have hnotPRO : ∀ pr ∈ missingPairs PRO inflows,
      PRO.any (fun q => q.key == pairKey pr) = false := by
    intro pr hpr
    cases hany : PRO.any (fun q => q.key == pairKey pr) with
    | false => rfl
    | true =>
      obtain ⟨q, hq, hqk⟩ := List.any_eq_true.mp hany
      rw [beq_iff_eq] at hqk
      have hqpair : (q.activityId, q.productId)
          ∈ inflows.map (fun fl => (fl.sourceActivityId, fl.productId))
            ++ PRO.map (fun r => (r.activityId, r.productId)) :=
        List.mem_append_right _ (List.mem_map_of_mem _ hq)
      have heq : pr = (q.activityId, q.productId) :=
        HINJ pr (hmem pr hpr) (q.activityId, q.productId) hqpair
          (by rw [← hqk, HPK q hq])
      have hcon := (missingPairs_sub PRO inflows pr hpr).2
      have hin : pr ∈ PRO.map (fun r => (r.activityId, r.productId)) := by
        rw [heq]; exact List.mem_map_of_mem _ hq
      have htrue : (PRO.map (fun r => (r.activityId, r.productId))).contains pr
          = true := List.elem_eq_true_of_mem hin
      rw [hcon] at htrue
      exact absurd htrue (by simp)
  have hnotOut : ∀ pr ∈ missingPairs PRO inflows,
      outflows.any (fun o => o.key == pairKey pr) = false := by
    intro pr hpr
    cases hany : outflows.any (fun o => o.key == pairKey pr) with
    | false => rfl
    | true =>
      obtain ⟨o, ho, hok⟩ := List.any_eq_true.mp hany
      obtain ⟨q, hq, hqk⟩ := HOK o ho
      have : PRO.any (fun r => r.key == pairKey pr) = true :=
        List.any_eq_true.mpr ⟨q, hq, by rw [hqk]; exact hok⟩
      rw [hnotPRO pr hpr] at this
      simp at this
  have hpw : (missingPairs PRO inflows).Pairwise
      (fun a b => pairKey a ≠ pairKey b) := by
    have hnd : (missingPairs PRO inflows).Nodup := by
      unfold missingPairs
      exact (List.nodup_dedup _).filter _
    refine List.Pairwise.imp_of_mem ?_ hnd
    intro a b ha hb hne hkeq
    exact hne (HINJ a (hmem a ha) b (hmem b hb) hkeq)
  have hclosed := repair_fold_fresh (missingPairs PRO inflows) PRO outflows
    (fun pr => mergedMeta PRO pr.1) hnotPRO hnotOut hpw
  have hfix : fix_missing_activities PRO inflows outflows
      = (PRO ++ (missingPairs PRO inflows).map (fun pr =>
            ⟨pairKey pr, pr.1, pr.2, (mergedMeta PRO pr.1).1,
             (mergedMeta PRO pr.1).2, some "DUMMY PRODUCTION"⟩),
         outflows ++ (missingPairs PRO inflows).map (fun pr =>
            ⟨pairKey pr, pairKey pr, pr.2, 1⟩)) := by
    rw [fix_missing_activities]
    exact hclosed
  refine ⟨?_, ?_, ?_, ?_⟩
  · intro fl hfl
    by_cases hc : (fl.sourceActivityId, fl.productId)
        ∈ PRO.map (fun q => (q.activityId, q.productId))
    · obtain ⟨q, hq, hqe⟩ := List.mem_map.mp hc
      refine ⟨q, ?_, ?_, ?_⟩
      · rw [hfix]; exact List.mem_append_left _ hq
      · exact (Prod.mk.injEq _ _ _ _ ▸ hqe).1
      · exact (Prod.mk.injEq _ _ _ _ ▸ hqe).2
    · have hprm : (fl.sourceActivityId, fl.productId)
          ∈ missingPairs PRO inflows := by
        unfold missingPairs
        rw [List.mem_filter]
        refine ⟨List.mem_dedup.mpr (List.mem_map_of_mem _ hfl), ?_⟩
        simp only [Bool.not_eq_true']
        cases hcc : (PRO.map (fun q => (q.activityId, q.productId))).contains
            (fl.sourceActivityId, fl.productId) with
        | false => rfl
        | true => exact absurd (List.mem_of_elem_eq_true hcc) hc
      refine ⟨⟨pairKey (fl.sourceActivityId, fl.productId),
        fl.sourceActivityId, fl.productId,
        (mergedMeta PRO fl.sourceActivityId).1,
        (mergedMeta PRO fl.sourceActivityId).2, some "DUMMY PRODUCTION"⟩,
        ?_, rfl, rfl⟩
      rw [hfix]
      exact List.mem_append_right _ (List.mem_map_of_mem _ hprm)
  · rw [hfix]; simp
  · rw [hfix]; simp
  · intro pr hpr
    constructor
    · rw [hfix]
      exact List.mem_append_right _ (List.mem_map_of_mem _ hpr)
    · rw [hfix]
      exact List.mem_append_right _ (List.mem_map_of_mem _ hpr)

/-- C4, witness: one present pair, one dangling pair ("B", "y"); the
repairer adds exactly one dummy process and a unit outflow for it. -/
theorem c4_amended_witness :
    (∀ fl ∈ ([⟨"f", "A", "x", 2⟩, ⟨"f", "B", "y", 1⟩] : List InFlowRow),
      ∃ q ∈ (fix_missing_activities [⟨"A_x", "A", "x", none, none, none⟩]
          [⟨"f", "A", "x", 2⟩, ⟨"f", "B", "y", 1⟩]
          [⟨"A_x", "A_x", "x", 5⟩]).1,
        q.activityId = fl.sourceActivityId ∧ q.productId = fl.productId)
    ∧ (fix_missing_activities [⟨"A_x", "A", "x", none, none, none⟩]
        [⟨"f", "A", "x", 2⟩, ⟨"f", "B", "y", 1⟩]
        [⟨"A_x", "A_x", "x", 5⟩]).1.length = 1 + 1 := by
  have h := c4_amended [⟨"A_x", "A", "x", none, none, none⟩]
    [⟨"f", "A", "x", 2⟩, ⟨"f", "B", "y", 1⟩] [⟨"A_x", "A_x", "x", 5⟩]
    (by decide) (by decide) (by decide)
  refine ⟨h.1, ?_⟩
  have h2 := h.2.1
  simpa using h2


/-- `IS` is plain equality of nullable values. -/
theorem isEq_eq {a b : Option String} (h : isEq a b = true) : a = b := by
  simpa [isEq] using h

/-- Every stored rowid is below the next one. -/
theorem sid_lt_nextSid (db : DB) : ∀ s ∈ db.substances, s.sid < nextSid db := by
  intro s hs
  have hle : ∀ (l : List ℕ) (a : ℕ), a ∈ l → a ≤ l.foldr max 0 := by
    intro l
    induction l with
    | nil => intro a ha; simp at ha
    | cons b t ih =>
      intro a ha
      rcases List.mem_cons.mp ha with rfl | hm
      · exact le_max_left _ _
      · exact le_trans (ih a hm) (le_max_right _ _)
  have := hle (db.substances.map (·.sid)) s.sid (List.mem_map_of_mem _ hs)
  unfold nextSid
  omega

/-- Tag-consistency of records only references `substances`, so it is
transported along substance-table growth. -/
theorem RecsWF_mono {db db2 : DB} {recs : List FlowRec}
    (hext : SubstExt db db2) (h : RecsWF db recs) : RecsWF db2 recs := by
  intro r hr sid hs
  obtain ⟨u, hu, h1, h2⟩ := h r hr sid hs
  exact ⟨u, hext u hu, h1, h2⟩

/-- `NamesWF` survives substance growth when `names` is unchanged. -/
theorem NamesWF_mono {db db2 : DB} (hext : SubstExt db db2)
    (hn : db2.names = db.names) (h : NamesWF db) : NamesWF db2 := by
  intro n hn2
  rw [hn] at hn2
  obtain ⟨u, hu, h1, h2⟩ := h n hn2
  exact ⟨u, hext u hu, h1, h2⟩

/-- `insertSubstance` only appends, keeps `names`, and keeps rowids
distinct. -/
theorem insertSubstance_spec (db : DB) (nm cas tag : Option String) :
    SubstExt db (insertSubstance db nm cas tag)
    ∧ (insertSubstance db nm cas tag).names = db.names
    ∧ (SidsNodup db → SidsNodup (insertSubstance db nm cas tag)) := by
  unfold insertSubstance
  split
  · exact ⟨fun s hs => hs, rfl, fun h => h⟩
  split
  · exact ⟨fun s hs => hs, rfl, fun h => h⟩
  · refine ⟨fun s hs => List.mem_append_left _ hs, rfl, fun h => ?_⟩
    unfold SidsNodup at h ⊢
    simp only [List.map_append, List.map_cons, List.map_nil]
    rw [List.nodup_append]
    refine ⟨h, List.nodup_singleton _, ?_⟩
    intro x hx hx2
    simp only [List.mem_singleton] at hx2
    obtain ⟨s, hs, hsx⟩ := List.mem_map.mp hx
    have hlt := sid_lt_nextSid db s hs
    have hx3 : x = nextSid db := hx2
    have hsx2 : s.sid = x := hsx
    omega

/-- `insertNameRow` keeps `substances` and preserves `NamesWF` when the new
row is justified by an existing substance of the same tag. -/
theorem insertNameRow_spec (db : DB) (nm tag : Option String) (sid : ℕ)
    (hjust : ∃ s ∈ db.substances, s.sid = sid ∧ s.tag = tag) :
    (insertNameRow db nm tag sid).substances = db.substances
    ∧ (NamesWF db → NamesWF (insertNameRow db nm tag sid)) := by
  unfold insertNameRow
  split
  · exact ⟨rfl, fun h => h⟩
  split
  · exact ⟨rfl, fun h => h⟩
  · refine ⟨rfl, fun h => ?_⟩
    intro n hn
    rcases List.mem_append.mp hn with hold | hnew
    · exact h n hold
    · simp only [List.mem_singleton] at hnew
      subst hnew
      exact hjust

/-- `_insert_names_from_labels` keeps `substances` and preserves `NamesWF`
when all its records are tag-consistent. -/
theorem insert_names_spec (recs : List FlowRec) :
    ∀ db : DB, RecsWF db recs →
      (insert_names_from_labels db recs).substances = db.substances
      ∧ (NamesWF db → NamesWF (insert_names_from_labels db recs)) := by
  induction recs with
  | nil => intro db _; exact ⟨rfl, fun h => h⟩
  | cons r rest ih =>
    intro db hwf
    rw [insert_names_from_labels]
    cases hs : r.substid with
    | none =>
      exact ih db (fun r2 hr2 => hwf r2 (List.mem_cons_of_mem r hr2))
    | some sid =>
      obtain ⟨u, hu, husid, hutag⟩ :=
        hwf r (List.mem_cons_self r rest) sid hs
      have h1 := insertNameRow_spec db r.name r.tag sid ⟨u, hu, husid, hutag⟩
      have h2 := insertNameRow_spec (insertNameRow db r.name r.tag sid)
        r.name2 r.tag sid ⟨u, by rw [h1.1]; exact hu, husid, hutag⟩
      have hsub : (insertNameRow (insertNameRow db r.name r.tag sid)
          r.name2 r.tag sid).substances = db.substances := by
        rw [h2.1, h1.1]
      have hrest : RecsWF (insertNameRow (insertNameRow db r.name r.tag sid)
          r.name2 r.tag sid) rest := by
        refine RecsWF_mono (fun s hsm => ?_)
          (fun r2 hr2 => hwf r2 (List.mem_cons_of_mem r hr2))
        rw [hsub]; exact hsm
      have ihr := ih _ hrest
      refine ⟨by rw [ihr.1, hsub], fun h => ihr.2 (h2.2 (h1.2 h))⟩

/-- The CAS-keyed substance creation only grows `substances`, keeps
`names`, and keeps rowids distinct. -/
theorem insertSubstancesCAS_spec (recs : List FlowRec) :
    ∀ db : DB, SubstExt db (insertSubstancesCAS db recs)
      ∧ (insertSubstancesCAS db recs).names = db.names
      ∧ (SidsNodup db → SidsNodup (insertSubstancesCAS db recs)) := by
  induction recs with
  | nil => intro db; exact ⟨fun s hs => hs, rfl, fun h => h⟩
  | cons r rest ih =>
    intro db
    rw [insertSubstancesCAS]
    cases hc : r.cas with
    | none => exact ih db
    | some c =>
      cases hn : r.name with
      | some nm =>
        have h1 := insertSubstance_spec db (some nm) (some c) r.tag
        have h2 := ih (insertSubstance db (some nm) (some c) r.tag)
        exact ⟨fun s hs => h2.1 s (h1.1 s hs), by rw [h2.2.1, h1.2.1],
          fun h => h2.2.2 (h1.2.2 h)⟩
      | none =>
        have h1 := insertSubstance_spec db r.name2 (some c) r.tag
        have h2 := ih (insertSubstance db r.name2 (some c) r.tag)
        exact ⟨fun s hs => h2.1 s (h1.1 s hs), by rw [h2.2.1, h1.2.1],
          fun h => h2.2.2 (h1.2.2 h)⟩

/-- Same for the name-keyed substance creation of step 2.5. -/
theorem insertSubstancesNoCAS_spec (recs : List FlowRec) :
    ∀ db : DB, SubstExt db (insertSubstancesNoCAS db recs)
      ∧ (insertSubstancesNoCAS db recs).names = db.names
      ∧ (SidsNodup db → SidsNodup (insertSubstancesNoCAS db recs)) := by
  induction recs with
  | nil => intro db; exact ⟨fun s hs => hs, rfl, fun h => h⟩
  | cons r rest ih =>
    intro db
    rw [insertSubstancesNoCAS]
    split
    · cases hn : r.name with
      | some nm =>
        have h1 := insertSubstance_spec db (some nm) r.cas r.tag
        have h2 := ih (insertSubstance db (some nm) r.cas r.tag)
        exact ⟨fun s hs => h2.1 s (h1.1 s hs), by rw [h2.2.1, h1.2.1],
          fun h => h2.2.2 (h1.2.2 h)⟩
      | none =>
        have h1 := insertSubstance_spec db r.name2 r.cas r.tag
        have h2 := ih (insertSubstance db r.name2 r.cas r.tag)
        exact ⟨fun s hs => h2.1 s (h1.1 s hs), by rw [h2.2.1, h1.2.1],
          fun h => h2.2.2 (h1.2.2 h)⟩
    · exact ih db

/-- The CAS back-fill keeps records tag-consistent: a newly assigned
substance id comes from a substance with the record's own tag. -/
theorem backfillCAS_wf (db : DB) (recs : List FlowRec)
    (h : RecsWF db recs) : RecsWF db (backfillCAS db recs) := by
  intro r2 hr2 sid hs
  obtain ⟨r, hr, hmap⟩ := List.mem_map.mp hr2
  by_cases hcase : (r.substid == none) = true
  · simp only [backfillCAS, hcase, if_pos] at hmap
    cases hfind : db.substances.find? (fun s =>
        eqVal r.cas s.cas && isEq r.tag s.tag) with
    | none =>
      rw [hfind] at hmap
      subst hmap
      exact h r hr sid hs
    | some u =>
      rw [hfind] at hmap
      subst hmap
      simp only at hs
      have hu := List.mem_of_find?_eq_some hfind
      have hp := List.find?_some hfind
      rw [Bool.and_eq_true] at hp
      have htag := isEq_eq hp.2
      cases hs
      exact ⟨u, hu, rfl, htag.symm⟩
  · simp only [backfillCAS, hcase, if_neg] at hmap
    subst hmap
    exact h r hr sid hs

/-- Step 2.6 keeps records tag-consistent. -/
theorem backfillNameTag_wf (db : DB) (recs : List FlowRec)
    (h : RecsWF db recs) : RecsWF db (backfillNameTag db recs) := by
  intro r2 hr2 sid hs
  obtain ⟨r, hr, hmap⟩ := List.mem_map.mp hr2
  by_cases hcase : (r.substid == none) = true
  · simp only [backfillNameTag, hcase, if_pos] at hmap
    cases hfind : db.substances.find? (fun s =>
        (likeO r.name s.aName || likeO r.name2 s.aName) && isEq r.tag s.tag) with
    | none =>
      rw [hfind] at hmap
      subst hmap
      exact h r hr sid hs
    | some u =>
      rw [hfind] at hmap
      subst hmap
      simp only at hs
      have hu := List.mem_of_find?_eq_some hfind
      have hp := List.find?_some hfind
      rw [Bool.and_eq_true] at hp
      have htag := isEq_eq hp.2
      cases hs
      exact ⟨u, hu, rfl, htag.symm⟩
  · simp only [backfillNameTag, hcase, if_neg] at hmap
    subst hmap
    exact h r hr sid hs

/-- An exact name match returns a `names` row with the record's tag. -/
theorem exactNameMatch_just {db : DB} {r : FlowRec} {n : NameRow}
    (h : exactNameMatch db r = some n) : n ∈ db.names ∧ n.tag = r.tag := by
  refine ⟨List.mem_of_find?_eq_some h, ?_⟩
  have hp := List.find?_some h
  rw [Bool.and_eq_true] at hp
  exact (isEq_eq hp.2).symm

/-- A synonym match returns the id of a `names` row with the record's
tag. -/
theorem synMatch_just {db : DB} {syns : List SynRow} {lvl : ℕ} {dirA : Bool}
    {r : FlowRec} {sid : ℕ} (h : synMatch db syns lvl dirA r = some sid) :
    ∃ n ∈ db.names, n.sid = sid ∧ n.tag = r.tag := by
  obtain ⟨n, hn, hf⟩ := List.exists_of_findSome?_eq_some h
  by_cases hc : (isEq r.tag n.tag && syns.any (fun s =>
      s.approximationLevel == lvl &&
      (likeS r.name (if dirA then s.aName else s.anotherName) ||
       likeS r.name2 (if dirA then s.aName else s.anotherName)) &&
      likeO (some (if dirA then s.anotherName else s.aName)) n.name)) = true
  · rw [if_pos hc] at hf
    cases hf
    rw [Bool.and_eq_true] at hc
    exact ⟨n, hn, rfl, (isEq_eq hc.1).symm⟩
  · rw [if_neg hc] at hf
    exact absurd hf (by simp)

/-- The synonym loop never touches an already-resolved record. -/
theorem synFoldSteps_skip (db : DB) (syns : List SynRow)
    (steps : List (ℕ × Bool)) :
    ∀ r : FlowRec, r.substid ≠ none → synFoldSteps db syns steps r = r := by
  induction steps with
  | nil => intro r _; rfl
  | cons st rest ih =>
    intro r h
    rw [synFoldSteps]
    have hstep : synStep db syns r st = r := by
      rw [synStep, if_neg (by simpa using h)]
    rw [hstep]
    exact ih r h

/-- The synonym loop either leaves a record alone or resolves it to the id
of a `names` row with the record's own tag. -/
theorem synFoldSteps_shape (db : DB) (syns : List SynRow)
    (steps : List (ℕ × Bool)) :
    ∀ r : FlowRec, synFoldSteps db syns steps r = r
      ∨ ∃ sid, (∃ n ∈ db.names, n.sid = sid ∧ n.tag = r.tag)
          ∧ synFoldSteps db syns steps r = { r with substid := some sid } := by
  induction steps with
  | nil => intro r; exact Or.inl rfl
  | cons st rest ih =>
    intro r
    rw [synFoldSteps]
    by_cases hr : (r.substid == none) = true
    · cases hm : synMatch db syns st.1 st.2 r with
      | none =>
        have hstep : synStep db syns r st = r := by
          rw [synStep, if_pos hr, hm]
        rw [hstep]
        exact ih r
      | some sid =>
        have hstep : synStep db syns r st = { r with substid := some sid } := by
          rw [synStep, if_pos hr, hm]
        rw [hstep]
        have hskip := synFoldSteps_skip db syns rest
          { r with substid := some sid } (by simp)
        rw [hskip]
        exact Or.inr ⟨sid, synMatch_just hm, rfl⟩
    · have hstep : synStep db syns r st = r := by
        rw [synStep, if_neg hr]
      rw [hstep]
      exact ih r

/-- `_update_labels_from_names` on one record: untouched, or resolved via
a `names` row carrying the record's tag; in the latter case the record was
unresolved and CAS-free. -/
theorem update_labels_shape (db : DB) (syns : List SynRow) (r : FlowRec) :
    update_labels_from_names db syns r = r
    ∨ ∃ sid, (∃ n ∈ db.names, n.sid = sid ∧ n.tag = r.tag)
        ∧ update_labels_from_names db syns r = { r with substid := some sid } := by
  rw [update_labels_from_names]
  split
  · cases hx : exactNameMatch db r with
    | some n =>
      obtain ⟨hn, htag⟩ := exactNameMatch_just hx
      exact Or.inr ⟨n.sid, ⟨n, hn, rfl, htag⟩, rfl⟩
    | none =>
      exact synFoldSteps_shape db syns (synSteps syns) r
  · exact Or.inl rfl

/-- Mapping `_update_labels_from_names` over a table keeps it
tag-consistent, given well-formed names. -/
theorem update_recs_wf (db : DB) (syns : List SynRow) (recs : List FlowRec)
    (hn : NamesWF db) (h : RecsWF db recs) :
    RecsWF db (recs.map (update_labels_from_names db syns)) := by
  intro r2 hr2 sid hs
  obtain ⟨r, hr, hmap⟩ := List.mem_map.mp hr2
  rcases update_labels_shape db syns r with heq | ⟨sid2, ⟨n, hnm, hnsid, hntag⟩, heq⟩
  · rw [heq] at hmap
    subst hmap
    exact h r hr sid hs
  · rw [heq] at hmap
    subst hmap
    simp only at hs
    cases hs
    obtain ⟨u, hu, husid, hutag⟩ := hn n hnm
    exact ⟨u, hu, by rw [husid, hnsid], by rw [hutag, hntag]⟩

/-- `SidsNodup` only references `substances`. -/
theorem SidsNodup_substEq {db db2 : DB} (h : db2.substances = db.substances)
    (hh : SidsNodup db) : SidsNodup db2 := by
  unfold SidsNodup at hh ⊢
  rw [h]
  exact hh

/-- The CAS pass preserves the workspace invariants and tag-consistency of
its table. -/
theorem withCAS_spec (db : DB) (recs : List FlowRec)
    (h1 : SidsNodup db) (h2 : NamesWF db) (h3 : RecsWF db recs) :
    SidsNodup (integrate_flows_withCAS db recs).1
    ∧ NamesWF (integrate_flows_withCAS db recs).1
    ∧ RecsWF (integrate_flows_withCAS db recs).1
        (integrate_flows_withCAS db recs).2
    ∧ SubstExt db (integrate_flows_withCAS db recs).1 := by
  have hA := insertSubstancesCAS_spec recs db
  have hnodup1 : SidsNodup (insertSubstancesCAS db recs) := hA.2.2 h1
  have hnames1 : NamesWF (insertSubstancesCAS db recs) :=
    NamesWF_mono hA.1 hA.2.1 h2
  have hrecs1 : RecsWF (insertSubstancesCAS db recs)
      (backfillCAS (insertSubstancesCAS db recs) recs) :=
    backfillCAS_wf _ _ (RecsWF_mono hA.1 h3)
  have hB := insert_names_spec (backfillCAS (insertSubstancesCAS db recs) recs)
    (insertSubstancesCAS db recs) hrecs1
  have hext2 : SubstExt (insertSubstancesCAS db recs)
      (insert_names_from_labels (insertSubstancesCAS db recs)
        (backfillCAS (insertSubstancesCAS db recs) recs)) := by
    intro s hs
    rw [hB.1]
    exact hs
  exact ⟨SidsNodup_substEq hB.1 hnodup1, hB.2 hnames1,
    RecsWF_mono hext2 hrecs1, fun s hs => hext2 s (hA.1 s hs)⟩

/-- The name/synonym pass preserves the workspace invariants and
tag-consistency of its table. -/
theorem withoutCAS_spec (db : DB) (syns : List SynRow) (recs : List FlowRec)
    (h1 : SidsNodup db) (h2 : NamesWF db) (h3 : RecsWF db recs) :
    SidsNodup (integrate_flows_withoutCAS db syns recs).1
    ∧ NamesWF (integrate_flows_withoutCAS db syns recs).1
    ∧ RecsWF (integrate_flows_withoutCAS db syns recs).1
        (integrate_flows_withoutCAS db syns recs).2
    ∧ SubstExt db (integrate_flows_withoutCAS db syns recs).1 := by
  have hrecs1 : RecsWF db (recs.map (update_labels_from_names db syns)) :=
    update_recs_wf db syns recs h2 h3
  have hB := insert_names_spec (recs.map (update_labels_from_names db syns))
    db hrecs1
  have hnodup1 : SidsNodup (insert_names_from_labels db
      (recs.map (update_labels_from_names db syns))) :=
    SidsNodup_substEq hB.1 h1
  have hnames1 := hB.2 h2
  have hext1 : SubstExt db (insert_names_from_labels db
      (recs.map (update_labels_from_names db syns))) := by
    intro s hs; rw [hB.1]; exact hs
  have hC := insertSubstancesNoCAS_spec
    (recs.map (update_labels_from_names db syns))
    (insert_names_from_labels db (recs.map (update_labels_from_names db syns)))
  have hnodup2 := hC.2.2 hnodup1
  have hnames2 := NamesWF_mono hC.1 hC.2.1 hnames1
  have hrecs2 := backfillNameTag_wf _
    (recs.map (update_labels_from_names db syns))
    (RecsWF_mono hC.1 (RecsWF_mono hext1 hrecs1))
  have hD := insert_names_spec _ _ hrecs2
  have hnodup3 := SidsNodup_substEq hD.1 hnodup2
  have hnames3 := hD.2 hnames2
  have hextD : SubstExt (insertSubstancesNoCAS (insert_names_from_labels db
      (recs.map (update_labels_from_names db syns)))
      (recs.map (update_labels_from_names db syns)))
      (integrate_flows_withoutCAS db syns recs).1 := by
    intro s hs
    show s ∈ (insert_names_from_labels _ _).substances
    rw [hD.1]
    exact hs
  have hrecs3 := RecsWF_mono hextD hrecs2
  have hrecsFinal := update_recs_wf _ syns _ hnames3 hrecs3
  refine ⟨hnodup3, hnames3, hrecsFinal, ?_⟩
  intro s hs
  exact hextD s (hC.1 s (hext1 s hs))

/-- Each per-table pass, folded over every table while accumulating the
processed tables, preserves the workspace invariants and tag-consistency
of everything processed so far. -/
theorem phase_fold_spec (step : DB → List FlowRec → DB × List FlowRec)
    (hstep : ∀ db recs, SidsNodup db → NamesWF db → RecsWF db recs →
      SidsNodup (step db recs).1 ∧ NamesWF (step db recs).1 ∧
      RecsWF (step db recs).1 (step db recs).2 ∧ SubstExt db (step db recs).1)
    (tables : List (List FlowRec)) :
    ∀ (db : DB) (acc : List (List FlowRec)),
      SidsNodup db → NamesWF db → (∀ l ∈ acc, RecsWF db l) →
      (∀ t ∈ tables, RecsWF db t) →
      SidsNodup (tables.foldl (fun a t =>
          ((step a.1 t).1, a.2 ++ [(step a.1 t).2])) (db, acc)).1
      ∧ NamesWF (tables.foldl (fun a t =>
          ((step a.1 t).1, a.2 ++ [(step a.1 t).2])) (db, acc)).1
      ∧ (∀ l ∈ (tables.foldl (fun a t =>
            ((step a.1 t).1, a.2 ++ [(step a.1 t).2])) (db, acc)).2,
          RecsWF (tables.foldl (fun a t =>
            ((step a.1 t).1, a.2 ++ [(step a.1 t).2])) (db, acc)).1 l)
      ∧ SubstExt db (tables.foldl (fun a t =>
          ((step a.1 t).1, a.2 ++ [(step a.1 t).2])) (db, acc)).1 := by
  induction tables with
  | nil =>
    intro db acc h1 h2 hacc _
    exact ⟨h1, h2, hacc, fun s hs => hs⟩
  | cons t rest ih =>
    intro db acc h1 h2 hacc htab
    rw [List.foldl_cons]
    have hst := hstep db t h1 h2 (htab t (List.mem_cons_self t rest))
    have ihr := ih (step db t).1 (acc ++ [(step db t).2]) hst.1 hst.2.1
      (fun l hl => by
        rcases List.mem_append.mp hl with hold | hnew
        · exact RecsWF_mono hst.2.2.2 (hacc l hold)
        · simp only [List.mem_singleton] at hnew
          subst hnew
          exact hst.2.2.1)
      (fun t2 ht2 => RecsWF_mono hst.2.2.2
        (htab t2 (List.mem_cons_of_mem t ht2)))
    exact ⟨ihr.1, ihr.2.1, ihr.2.2.1,
      fun s hs => ihr.2.2.2 s (hst.2.2.2 s hs)⟩

/-- C3: after the full resolution pipeline (CAS pass then name/synonym pass
over every table, starting from an empty workspace), two records with
different tag values never share one substance identity — every matching
step constrains the record's tag to equal the tag of the substance or of
the `names` row it matches. -/
theorem c3_tag_scoping (syns : List SynRow) (tables : List (List FlowRec))
    (hinit : ∀ t ∈ tables, ∀ r ∈ t, r.substid = none)
    (l1 l2 : List FlowRec) (r1 r2 : FlowRec) (s1 s2 : ℕ)
    (h1 : l1 ∈ (characterize_flows syns tables).2)
    (h2 : l2 ∈ (characterize_flows syns tables).2)
    (hr1 : r1 ∈ l1) (hr2 : r2 ∈ l2)
    (htag : r1.tag ≠ r2.tag)
    (hs1 : r1.substid = some s1) (hs2 : r2.substid = some s2) :
    s1 ≠ s2 := by
  have hempty1 : SidsNodup DB.empty := List.nodup_nil
  have hempty2 : NamesWF DB.empty := fun n hn => absurd hn (by simp [DB.empty])
  have hph1 := phase_fold_spec integrate_flows_withCAS
    (fun db recs => withCAS_spec db recs) tables DB.empty []
    hempty1 hempty2 (fun l hl => absurd hl (by simp))
    (fun t ht r hr sid hsid => absurd hsid (by simp [hinit t ht r hr]))
  have hph2 := phase_fold_spec
    (fun db recs => integrate_flows_withoutCAS db syns recs)
    (fun db recs => withoutCAS_spec db syns recs)
    (tables.foldl (fun a t =>
      ((integrate_flows_withCAS a.1 t).1,
       a.2 ++ [(integrate_flows_withCAS a.1 t).2])) (DB.empty, [])).2
    (tables.foldl (fun a t =>
      ((integrate_flows_withCAS a.1 t).1,
       a.2 ++ [(integrate_flows_withCAS a.1 t).2])) (DB.empty, [])).1
    [] hph1.1 hph1.2.1 (fun l hl => absurd hl (by simp)) hph1.2.2.1
  have hfin1 := hph2.2.2.1 l1 h1
  have hfin2 := hph2.2.2.1 l2 h2
  obtain ⟨u1, hu1, hu1sid, hu1tag⟩ := hfin1 r1 hr1 s1 hs1
  obtain ⟨u2, hu2, hu2sid, hu2tag⟩ := hfin2 r2 hr2 s2 hs2
  intro hcon
  have hnd := hph2.1
  unfold SidsNodup at hnd
  have hueq : u1 = u2 := by
    refine List.inj_on_of_nodup_map hnd hu1 hu2 ?_
    show u1.sid = u2.sid
    rw [hu1sid, hu2sid, hcon]
  apply htag
  rw [← hu1tag, ← hu2tag, hueq]

/-- C3, witness: two CO2 records, tags `fossil` and `non-fossil`, run
through the full pipeline; they resolve to the distinct substances 1
and 2. -/
theorem c3_tag_scoping_witness : (1 : ℕ) ≠ 2 := by
  refine c3_tag_scoping []
    [[⟨some "CO2", none, none, some "fossil", none⟩,
      ⟨some "CO2", none, none, some "non-fossil", none⟩]]
    (by decide)
    [⟨some "CO2", none, none, some "fossil", some 1⟩,
     ⟨some "CO2", none, none, some "non-fossil", some 2⟩]
    [⟨some "CO2", none, none, some "fossil", some 1⟩,
     ⟨some "CO2", none, none, some "non-fossil", some 2⟩]
    ⟨some "CO2", none, none, some "fossil", some 1⟩
    ⟨some "CO2", none, none, some "non-fossil", some 2⟩
    1 2 (by decide) (by decide) (by decide) (by decide) (by decide) rfl rfl

/-- Step 2.6 leaves an already-resolved record untouched, position by
position. -/
theorem backfillNameTag_getElem (db : DB) (recs : List FlowRec) (i : ℕ)
    (r : FlowRec) (hs : r.substid ≠ none) (h : recs[i]? = some r) :
    (backfillNameTag db recs)[i]? = some r := by
  rw [backfillNameTag, List.getElem?_map, h]
  simp only [Option.map_some']
  congr 1
  rw [if_neg]
  intro hc
  exact hs (by simpa using hc)

/-- The synonym loop resolves an unresolved record via the first
(level, direction) step, in the ascending enumeration, whose query
matches. -/
theorem synFoldSteps_first (db : DB) (syns : List SynRow)
    (steps : List (ℕ × Bool)) :
    ∀ (r : FlowRec) (st : ℕ × Bool) (sid : ℕ), r.substid = none →
      steps.find? (fun st2 => (synMatch db syns st2.1 st2.2 r).isSome)
        = some st →
      synMatch db syns st.1 st.2 r = some sid →
      synFoldSteps db syns steps r = { r with substid := some sid } := by
  induction steps with
  | nil => intro r st sid _ hf _; simp at hf
  | cons st0 rest ih =>
    intro r st sid hr hf hm
    rw [synFoldSteps]
    cases hm0 : synMatch db syns st0.1 st0.2 r with
    | some sid0 =>
      rw [List.find?_cons_of_pos _ (by simp [hm0])] at hf
      have hst : st0 = st := by simpa using hf
      have hsid : sid0 = sid := by
        rw [hst] at hm0
        rw [hm0] at hm
        simpa using hm
      have hstep : synStep db syns r st0 = { r with substid := some sid0 } := by
        rw [synStep, if_pos (by simp [hr]), hm0]
      rw [hstep, synFoldSteps_skip db syns rest _ (by simp), hsid]
    | none =>
      rw [List.find?_cons_of_neg _ (by simp [hm0])] at hf
      have hstep : synStep db syns r st0 = r := by
        rw [synStep, if_pos (by simp [hr]), hm0]
      rw [hstep]
      exact ih r st sid hr hf hm

/-- C5: name matching and synonym matching in `_update_labels_from_names`
and `_integrate_flows_withoutCAS` touch only records that are still
unresolved and carry no CAS number; exact (name, tag) matching is tried
first, then the synonym table in ascending `approximationLevel` order with
both directions per level, first match winning; minting happens after the
matching, never overriding a match. -/
theorem c5_match_order (db : DB) (syns : List SynRow) (r : FlowRec) :
    (r.substid ≠ none → update_labels_from_names db syns r = r)
    ∧ (r.cas ≠ none → update_labels_from_names db syns r = r)
    ∧ (∀ n, r.substid = none → r.cas = none → exactNameMatch db r = some n →
        update_labels_from_names db syns r = { r with substid := some n.sid })
    ∧ List.Sorted (· ≤ ·) (levelsOf syns)
    ∧ (∀ st sid, r.substid = none → r.cas = none →
        exactNameMatch db r = none →
        (synSteps syns).find?
          (fun st2 => (synMatch db syns st2.1 st2.2 r).isSome) = some st →
        synMatch db syns st.1 st.2 r = some sid →
        update_labels_from_names db syns r = { r with substid := some sid })
    ∧ (∀ (recs : List FlowRec) (i s : ℕ), recs[i]? = some r →
        (update_labels_from_names db syns r).substid = some s →
        ((integrate_flows_withoutCAS db syns recs).2[i]?).map FlowRec.substid
          = some (some s)) := by
  refine ⟨?_, ?_, ?_, ?_, ?_, ?_⟩
  · intro h
    rw [update_labels_from_names, if_neg]
    intro hc
    rw [Bool.and_eq_true] at hc
    exact h (by simpa using hc.1)
  · intro h
    rw [update_labels_from_names, if_neg]
    intro hc
    rw [Bool.and_eq_true] at hc
    exact h (by simpa using hc.2)
  · intro n h1 h2 hx
    rw [update_labels_from_names, if_pos (by simp [h1, h2]), hx]
  · exact List.sorted_insertionSort (fun a b => a ≤ b) _
  · intro st sid h1 h2 hx hf hm
    rw [update_labels_from_names, if_pos (by simp [h1, h2]), hx]
    exact synFoldSteps_first db syns (synSteps syns) r st sid h1 hf hm
  · intro recs i s hget hupd
    have hupdkeep : ∀ (db2 : DB) (r2 : FlowRec), r2.substid = some s →
        update_labels_from_names db2 syns r2 = r2 := by
      intro db2 r2 hr2
      rw [update_labels_from_names, if_neg]
      intro hc
      rw [Bool.and_eq_true] at hc
      have hnone : r2.substid = none := by simpa using hc.1
      rw [hnone] at hr2
      exact absurd hr2 (by simp)
    have hne : (update_labels_from_names db syns r).substid ≠ none := by
      rw [hupd]
      simp
    have hrecs1 : (recs.map (update_labels_from_names db syns))[i]?
        = some (update_labels_from_names db syns r) := by
      rw [List.getElem?_map, hget]
      rfl
    simp only [integrate_flows_withoutCAS]
    rw [List.getElem?_map, backfillNameTag_getElem _ _ _ _ hne hrecs1]
    simp only [Option.map_some']
    rw [hupdkeep _ _ hupd, hupd]

/-- C5, witness: the matching order evaluated on concrete records — a
resolved record and a CAS-bearing record are untouched, an exact
case-insensitive (name, tag) match wins, levels are sorted ascending, a
synonym resolves a record only when the exact match fails, and the
resolved id survives the rest of the pass. -/
theorem c5_match_order_witness :
    update_labels_from_names DB.empty [] ⟨some "x", none, none, none, some 5⟩
      = ⟨some "x", none, none, none, some 5⟩
    ∧ update_labels_from_names DB.empty []
        ⟨some "x", none, some "50-00-0", none, none⟩
      = ⟨some "x", none, some "50-00-0", none, none⟩
    ∧ update_labels_from_names ⟨[], [⟨some "x", some "t", 3⟩]⟩ []
        ⟨some "X", none, none, some "t", none⟩
      = ⟨some "X", none, none, some "t", some 3⟩
    ∧ List.Sorted (· ≤ ·) (levelsOf [⟨"a", "b", 2⟩, ⟨"c", "d", 1⟩])
    ∧ update_labels_from_names ⟨[], [⟨some "y", some "t", 4⟩]⟩ [⟨"x", "y", 2⟩]
        ⟨some "x", none, none, some "t", none⟩
      = ⟨some "x", none, none, some "t", some 4⟩
    ∧ ((integrate_flows_withoutCAS ⟨[], [⟨some "x", some "t", 3⟩]⟩ []
        [⟨some "X", none, none, some "t", none⟩]).2[0]?).map FlowRec.substid
      = some (some 3) := by
  refine ⟨(c5_match_order DB.empty [] _).1 (by simp),
    (c5_match_order DB.empty [] _).2.1 (by simp),
    (c5_match_order ⟨[], [⟨some "x", some "t", 3⟩]⟩ []
      ⟨some "X", none, none, some "t", none⟩).2.2.1
      ⟨some "x", some "t", 3⟩ rfl rfl (by decide),
    (c5_match_order DB.empty [⟨"a", "b", 2⟩, ⟨"c", "d", 1⟩]
      ⟨none, none, none, none, none⟩).2.2.2.1,
    (c5_match_order ⟨[], [⟨some "y", some "t", 4⟩]⟩ [⟨"x", "y", 2⟩]
      ⟨some "x", none, none, some "t", none⟩).2.2.2.2.1
      (2, true) 4 rfl rfl (by decide) (by decide) (by decide),
    (c5_match_order ⟨[], [⟨some "x", some "t", 3⟩]⟩ []
      ⟨some "X", none, none, some "t", none⟩).2.2.2.2.2
      [⟨some "X", none, none, some "t", none⟩] 0 3 (by decide) (by decide)⟩

end E2M
